import Mathlib

/-!
Shallow embedding of the `gds_tools` package (files `classes.py`, `functions.py`,
`routing.py`) together with proofs checking the natural-language specification
against it.

Modelling conventions:
* Machine floats are modelled as exact rationals (`ℚ`).  The float constants
  `np.pi` and `1E-20` are embedded as the exact values of the corresponding
  IEEE-754 doubles.
* Python dicts are insertion-ordered association lists (`List (κ × ν)`).
* The gdspy geometry handle stored in `GDStructure.structure` is opaque to the
  package; it is modelled as the list of operations applied to it in place.
* The trigonometric functions used by `gds_tools.functions.VecRot` come from
  numpy (an external collaborator); they are modelled as an abstract pair of
  functions `Trig`.  Nothing proved below depends on their values.
* `cos`/`sin`-free arithmetic (`%`, `int`, `np.linspace`, `np.min`) is embedded
  with Python semantics over `ℚ`/`ℤ`.
* Graphs of linked `GDStructure` objects are a finite list of node identities
  plus a map from identity to node record; Python object identity is a `ℕ`.
* Recursive mutation (transform rippling, `copy`) is embedded state-passing
  style with explicit fuel; `none` means the fuel ran out or the Python code
  would have raised (e.g. `KeyError`).
-/

namespace GdsTools


/-! ## Association lists modelling Python dicts -/

variable {κ ν : Type} [DecidableEq κ]

/-- Python `d[k]` as an option (`none` = `KeyError`). -/
def alGet? : List (κ × ν) → κ → Option ν
  | [], _ => none
  | (k', v) :: t, k => if k' = k then some v else alGet? t k

/-- Python `d[k] = v`: overwrite in place, else append (insertion order). -/
def alSet : List (κ × ν) → κ → ν → List (κ × ν)
  | [], k, v => [(k, v)]
  | (k', v') :: t, k, v => if k' = k then (k, v) :: t else (k', v') :: alSet t k v

/-- Python `del d[k]` (on dicts the key occurs at most once). -/
def alDel (l : List (κ × ν)) (k : κ) : List (κ × ν) :=
  l.filter (fun p => p.1 ≠ k)

/-- Python `k in d`. -/
def alHas (l : List (κ × ν)) (k : κ) : Bool :=
  (alGet? l k).isSome

/-- Update every value in place, keeping keys and order. -/
def alMap (f : ν → ν) (l : List (κ × ν)) : List (κ × ν) :=
  l.map (fun p => (p.1, f p.2))

/-- Python `d[k] = f(d[k])` (`none` = `KeyError`). -/
def alUpd : List (κ × ν) → κ → (ν → ν) → Option (List (κ × ν))
  | [], _, _ => none
  | (k', v) :: t, k, f =>
      if k' = k then some ((k, f v) :: t)
      else (alUpd t k f).map (fun t' => (k', v) :: t')

/-! ## The data model: `GDStructure` nodes and link graphs -/

/-- Keys that can appear in the `prev`/`next` link dicts of the source:
endpoint-name strings, whole-object references (`connect` with
`obj_link = True`), and integer indices (`copy`). -/
inductive LinkKey where
  | str (s : String)
  | obj (n : ℕ)
  | idx (i : ℕ)
deriving DecidableEq

/-- The opaque gdspy handle held in `GDStructure.structure`, modelled as the
sequence of in-place operations the package has applied to it. -/
inductive GeomOp where
  | rot (rad : ℚ)
  | transl (d : ℚ × ℚ)
  | mirrorLn (p1 p2 : ℚ × ℚ)
  | pathOp (pts : List (ℚ × ℚ)) (ws : List ℚ ⊕ ℚ) (flex : Bool)
deriving DecidableEq

/-- One `GDStructure` instance (`classes.py`).  The deferred-builder fields
(`method`, `args`, `gen`) play no part in any claim and are not modelled. -/
structure GDSNode where
  struct : List GeomOp
  endpoints : List (String × ℚ × ℚ)
  endpoint_dims : List (String × Option ℚ)
  endpoint_directions : Option (List (String × ℚ))
  compound : List ℕ
  prev : List (LinkKey × ℕ)
  next : List (LinkKey × ℕ)
deriving DecidableEq

/-- A heap of `GDStructure` objects: the identities that exist plus the state
of each.  Python object identity is the `ℕ` index. -/
structure Graph where
  nodes : List ℕ
  data : ℕ → GDSNode

/-- In-place mutation of one node. -/
def Graph.setNode (g : Graph) (id : ℕ) (nd : GDSNode) : Graph :=
  ⟨g.nodes, fun n => if n = id then nd else g.data n⟩

/-- Allocation of a fresh object. -/
def Graph.freshId (g : Graph) : ℕ :=
  g.nodes.foldr max 0 + 1

def Graph.addNode (g : Graph) (id : ℕ) (nd : GDSNode) : Graph :=
  ⟨g.nodes ++ [id], fun n => if n = id then nd else g.data n⟩

/-! ## Shared numeric helpers (`functions.py` and Python builtins) -/

/-- The trigonometric collaborators used by `VecRot` (numpy is external to the
package); all results below hold for every interpretation of them. -/
structure Trig where
  cos : ℚ → ℚ
  sin : ℚ → ℚ

/-- `gds_tools.functions.VecRot` with origin `(0, 0)`:
`RotMat(rad).dot(vec)`. -/
def VecRot (T : Trig) (rad : ℚ) (v : ℚ × ℚ) : ℚ × ℚ :=
  (T.cos rad * v.1 - T.sin rad * v.2, T.sin rad * v.1 + T.cos rad * v.2)

/-- Python float `%` (sign of the divisor): `x - y * floor (x / y)`. -/
def pyMod (x y : ℚ) : ℚ := x - y * ⌊x / y⌋

/-- Python `int()` on a float: truncation toward zero. -/
def pyInt (q : ℚ) : ℤ := q.num.tdiv q.den

/-- Python `min`/`max` of two floats. -/
def minQ (a b : ℚ) : ℚ := if a ≤ b then a else b

def maxQ (a b : ℚ) : ℚ := if a ≤ b then b else a

/-- The IEEE-754 double closest to π, i.e. the value of `np.pi`. -/
def np_pi : ℚ := 884279719003555 / 281474976710656

/-- The IEEE-754 double denoted by the literal `1E-20` in `classes.py`. -/
def tinyEps : ℚ := 6646139978924579 / 664613997892457936451903530140172288

/-! ## Per-node transform bodies (`rotate`, `translate`, `mirror` local parts) -/

/-- The `self.endpoint_directions[i] += rad` updates of `rotate`, one per
endpoint key in order (`none` = `KeyError`). -/
def rotDirsAll (rad : ℚ) : List String → List (String × ℚ) → Option (List (String × ℚ))
  | [], ds => some ds
  | k :: t, ds =>
      match alUpd ds k (fun x => x + rad) with
      | none => none
      | some ds' => rotDirsAll rad t ds'

/-- The handle- and endpoint-rotation part of `GDStructure.rotate`. -/
def rotBase (T : Trig) (rad : ℚ) (nd : GDSNode) : GDSNode :=
  { nd with struct := nd.struct ++ [GeomOp.rot rad],
            endpoints := alMap (VecRot T rad) nd.endpoints }

/-- The part of `GDStructure.rotate` acting on `self` only: rotate the handle,
rotate every endpoint, and shift every direction when direction data is truthy. -/
def rotateLocal (T : Trig) (rad : ℚ) (nd : GDSNode) : Option GDSNode :=
  match nd.endpoint_directions with
  | none => some (rotBase T rad nd)
  | some [] => some (rotBase T rad nd)
  | some ds =>
      (rotDirsAll rad (nd.endpoints.map Prod.fst) ds).map
        (fun ds' => { rotBase T rad nd with endpoint_directions := some ds' })

/-- The node after the `self`-only part of `GDStructure.translate`. -/
def movBase (delta : ℚ × ℚ) (nd : GDSNode) : GDSNode :=
  { nd with struct := nd.struct ++ [GeomOp.transl delta],
            endpoints := alMap (fun v => (v.1 + delta.1, v.2 + delta.2)) nd.endpoints }

/-- The part of `GDStructure.translate` acting on `self` only. -/
def translateLocal (delta : ℚ × ℚ) (nd : GDSNode) : Option GDSNode :=
  some (movBase delta nd)

/-- The two epsilon-perturbation steps of `GDStructure.mirror` applied to `p1`
(`p2` is never changed). -/
def mirrorPerturb (p1 p2 : ℚ × ℚ) : ℚ × ℚ :=
  let p1a := if p1.1 = p2.1 then (p1.1 + tinyEps, p1.2) else p1
  if p1a.2 = p2.2 then (p1a.1, p1a.2 + tinyEps) else p1a

/-- The slope/intercept reflection formula of `GDStructure.mirror` for one
endpoint value. -/
def mirrorPoint (p1 p2 v : ℚ × ℚ) : ℚ × ℚ :=
  let a := (p2.2 - p1.2) / (p2.1 - p1.1)
  let c := p1.2 - a * p1.1
  let d := (v.1 + (v.2 - c) * a) / (1 + a ^ 2)
  (2 * d - v.1, 2 * d * a - v.2 + 2 * c)

/-- The endpoint loop of `GDStructure.mirror`: each iteration re-perturbs the
current `p1` and reflects one endpoint; the perturbed `p1` persists. -/
def mirrorEndpoints (p2 : ℚ × ℚ) :
    List (String × ℚ × ℚ) → (ℚ × ℚ) → List (String × ℚ × ℚ) × (ℚ × ℚ)
  | [], p1 => ([], p1)
  | (k, v) :: t, p1 =>
      let p1' := mirrorPerturb p1 p2
      let r := mirrorEndpoints p2 t p1'
      ((k, mirrorPoint p1' p2 v) :: r.1, r.2)

/-- The node after the `self`-only part of `GDStructure.mirror`. -/
def mirBase (nd : GDSNode) (p1 p2 : ℚ × ℚ) : GDSNode :=
  { nd with struct := nd.struct ++ [GeomOp.mirrorLn p1 p2],
            endpoints := (mirrorEndpoints p2 nd.endpoints p1).1 }

/-- The part of `GDStructure.mirror` acting on `self` only.  The handle is
mirrored with the incoming `p1`; the (possibly perturbed) `p1` after the
endpoint loop is what the source passes on to linked structures. -/
def mirrorLocal (nd : GDSNode) (st : (ℚ × ℚ) × (ℚ × ℚ)) :
    Option (GDSNode × ((ℚ × ℚ) × (ℚ × ℚ))) :=
  some (mirBase nd st.1 st.2, ((mirrorEndpoints st.2 nd.endpoints st.1).2, st.2))

/-! ## Transform propagation across the link graph

`rotate`, `translate` and `mirror` share the same ripple code: update `self`,
then walk `self.prev` and `self.next` in order, appending each unseen target to
the threaded `signal_from` list before recursing into it.  The three only
differ in the local step, and in that `mirror` threads a call-local state
(`p1`, `p2`) into the recursive calls.  Python's unbounded recursion is given
explicit fuel. -/

/-- Result of one rippled transform call: heap, final `signal_from` list, and
a ghost ordered log of the nodes whose local transform ran. -/
abbrev PropRes := Graph × List ℕ × List ℕ

/-- One neighbour loop (`for i in self.prev: ...` or the `next` copy): walk a
link dict in order and, for every target not yet in `signal_from`, append it
and recurse.  (The `and self.prev` / `and self.next` conjunct in the source is
a truthiness test of the dict being iterated, hence always true inside its own
loop.) -/
def propFold (recur : Graph → ℕ → List ℕ → List ℕ → Option PropRes) :
    List (LinkKey × ℕ) → Graph → List ℕ → List ℕ → Option PropRes
  | [], g, visited, log => some (g, visited, log)
  | (_, n) :: rest, g, visited, log =>
      if n ∈ visited then propFold recur rest g visited log
      else
        match recur g n (visited ++ [n]) log with
        | none => none
        | some (g', v', l') => propFold recur rest g' v' l'

/-- The shared body: append `self` to `signal_from` if absent, run the local
transform, then ripple through `prev` and then `next`. -/
def propBody {σ : Type} (f : GDSNode → σ → Option (GDSNode × σ))
    (recur : Graph → ℕ → σ → List ℕ → List ℕ → Option PropRes)
    (g : Graph) (selfId : ℕ) (st : σ) (visited log : List ℕ) : Option PropRes :=
  let visited1 := if selfId ∈ visited then visited else visited ++ [selfId]
  match f (g.data selfId) st with
  | none => none
  | some (nd', st') =>
      let g1 := g.setNode selfId nd'
      let log1 := log ++ [selfId]
      match propFold (fun g2 n v l => recur g2 n st' v l) (g1.data selfId).prev g1 visited1 log1 with
      | none => none
      | some (g2, v2, l2) =>
          propFold (fun g3 n v l => recur g3 n st' v l) (g2.data selfId).next g2 v2 l2

/-- Fuelled rippled transform.  Written with `Nat.rec` so applications to
numerals reduce definitionally. -/
def propGo {σ : Type} (f : GDSNode → σ → Option (GDSNode × σ)) :
    ℕ → Graph → ℕ → σ → List ℕ → List ℕ → Option PropRes :=
  fun fuel =>
    Nat.rec (motive := fun _ => Graph → ℕ → σ → List ℕ → List ℕ → Option PropRes)
      (fun _ _ _ _ _ => none)
      (fun _ ih => propBody f ih)
      fuel

/-! ### Generic facts about the ripple -/

/-- The per-node fields that a transform never touches: the two link dicts, the
dimension dict, the endpoint key set, and the children list. -/
def LinkEq (nd nd' : GDSNode) : Prop :=
  nd'.prev = nd.prev ∧ nd'.next = nd.next ∧ nd'.endpoint_dims = nd.endpoint_dims ∧
    nd'.endpoints.map Prod.fst = nd.endpoints.map Prod.fst ∧ nd'.compound = nd.compound

/-- Heap evolution that keeps the object population and every node's links. -/
def GraphLE (g g' : Graph) : Prop :=
  g'.nodes = g.nodes ∧ ∀ n, LinkEq (g.data n) (g'.data n)

/-- A local step that keeps links. -/
def PreservesLinks {σ : Type} (f : GDSNode → σ → Option (GDSNode × σ)) : Prop :=
  ∀ nd st nd' st', f nd st = some (nd', st') → LinkEq nd nd'

/-! ### Termination of the ripple on finite closed graphs -/

/-- Count of existing nodes not yet in the visited list. -/
def CU (g : Graph) (v : List ℕ) : ℕ :=
  (g.nodes.filter (fun n => decide (n ∉ v))).length

/-- Closure of the heap (every link target exists) together with a per-node
invariant `P` needed for the local step to succeed. -/
def ClosedP (P : GDSNode → Prop) (g : Graph) : Prop :=
  ∀ id ∈ g.nodes, (∀ p ∈ (g.data id).prev, p.2 ∈ g.nodes) ∧
    (∀ p ∈ (g.data id).next, p.2 ∈ g.nodes) ∧ P (g.data id)

/-- A local step that always succeeds on nodes satisfying `P`, preserves `P`,
and keeps links. -/
def StepTotal {σ : Type} (P : GDSNode → Prop) (f : GDSNode → σ → Option (GDSNode × σ)) : Prop :=
  ∀ nd st, P nd → ∃ nd' st', f nd st = some (nd', st') ∧ P nd' ∧ LinkEq nd nd'

/-! ## The concrete graph operations of `classes.py` -/

/-- `GDStructure.rotate`'s local step in the ripple's shape. -/
def rotStep (T : Trig) (rad : ℚ) : GDSNode → Unit → Option (GDSNode × Unit) :=
  fun nd _ => (rotateLocal T rad nd).map (fun nd' => (nd', ()))

/-- `GDStructure.translate`'s local step in the ripple's shape. -/
def movStep (delta : ℚ × ℚ) : GDSNode → Unit → Option (GDSNode × Unit) :=
  fun nd _ => (translateLocal delta nd).map (fun nd' => (nd', ()))

/-- Top-level `GDStructure.rotate(rad)` (so `signal_from = None`). -/
def rotate (T : Trig) (fuel : ℕ) (g : Graph) (selfId : ℕ) (rad : ℚ) : Option PropRes :=
  propGo (rotStep T rad) fuel g selfId () [] []

/-- Top-level `GDStructure.translate(delta)`. -/
def translate (fuel : ℕ) (g : Graph) (selfId : ℕ) (delta : ℚ × ℚ) : Option PropRes :=
  propGo (movStep delta) fuel g selfId () [] []

/-- Top-level `GDStructure.mirror(p1, p2)`. -/
def mirror (fuel : ℕ) (g : Graph) (selfId : ℕ) (p1 p2 : ℚ × ℚ) : Option PropRes :=
  propGo mirrorLocal fuel g selfId (p1, p2) [] []

/-- Direction data is consistent enough for `rotate` not to raise `KeyError`:
when the direction dict is truthy it has an entry for every endpoint key. -/
def dirsOKb (nd : GDSNode) : Bool :=
  match nd.endpoint_directions with
  | none => true
  | some [] => true
  | some ds => nd.endpoints.all (fun p => decide (p.1 ∈ ds.map Prod.fst))

/-- The tail of `GDStructure.connect` after the optional auto-orientation:
`delta = (to.endpoints[ep_to] - self.endpoints[ep_self]) + offset`, the
`self.mov(delta)` ripple, and the two linked-list updates. -/
def connectRest (fuel : ℕ) (g1 : Graph) (selfId : ℕ) (ep_self : String)
    (toId : ℕ) (ep_to : String) (offset : ℚ × ℚ) (obj_link : Bool) : Option Graph := do
  let pto ← alGet? ((g1.data toId).endpoints) ep_to
  let pse ← alGet? ((g1.data selfId).endpoints) ep_self
  let delta := (pto.1 - pse.1 + offset.1, pto.2 - pse.2 + offset.2)
  let r ← translate fuel g1 selfId delta
  let g2 := r.1
  -- `to.next[...] = self; self.prev[...] = to`
  let g3 := g2.setNode toId { g2.data toId with
    next := alSet ((g2.data toId).next)
      (if obj_link then LinkKey.obj selfId else LinkKey.str ep_to) selfId }
  let g4 := g3.setNode selfId { g3.data selfId with
    prev := alSet ((g3.data selfId).prev)
      (if obj_link then LinkKey.obj toId else LinkKey.str ep_self) toId }
  pure g4

/-- `GDStructure.connect(ep_self, to, ep_to, offset, obj_link, rotate)`.
`none` covers a Python `KeyError` and fuel exhaustion of the two ripples. -/
def connect (T : Trig) (fuel : ℕ) (g : Graph) (selfId : ℕ) (ep_self : String)
    (toId : ℕ) (ep_to : String) (offset : ℚ × ℚ) (obj_link rotateFlag : Bool) :
    Option Graph := do
  -- `if self.endpoint_directions != None and to.endpoint_directions != None
  --     and self.endpoint_directions and to.endpoint_directions and rotate:`
  let doRotate :=
    match (g.data selfId).endpoint_directions, (g.data toId).endpoint_directions with
    | some (_ :: _), some (_ :: _) => rotateFlag
    | _, _ => false
  let g1 ←
    if doRotate then do
      let dto ← alGet? ((g.data toId).endpoint_directions.getD []) ep_to
      let dse ← alGet? ((g.data selfId).endpoint_directions.getD []) ep_self
      let r ← rotate T fuel g selfId (pyMod (dto - dse - np_pi) (2 * np_pi))
      pure r.1
    else pure g
  connectRest fuel g1 selfId ep_self toId ep_to offset obj_link

/-- Inner loop of `disconnect`'s `if e in self.next:` branch:
`for ne in tgt.endpoints: if ne in tgt.prev and tgt.prev[ne] == self:
del tgt.prev[ne]`. -/
def delRevPrev (selfId tgt : ℕ) : Graph → List String → Graph
  | g, [] => g
  | g, ne :: rest =>
      let g' :=
        if alGet? ((g.data tgt).prev) (LinkKey.str ne) = some selfId then
          g.setNode tgt { g.data tgt with prev := alDel ((g.data tgt).prev) (LinkKey.str ne) }
        else g
      delRevPrev selfId tgt g' rest

/-- Inner loop of `disconnect`'s `if e in self.prev:` branch (deletes from the
target's `next`). -/
def delRevNext (selfId tgt : ℕ) : Graph → List String → Graph
  | g, [] => g
  | g, ne :: rest =>
      let g' :=
        if alGet? ((g.data tgt).next) (LinkKey.str ne) = some selfId then
          g.setNode tgt { g.data tgt with next := alDel ((g.data tgt).next) (LinkKey.str ne) }
        else g
      delRevNext selfId tgt g' rest

/-- One iteration of `disconnect`'s outer `for e in self.endpoints:` loop. -/
def discStep (g : Graph) (selfId : ℕ) (e : String) : Graph :=
  let g1 :=
    match alGet? ((g.data selfId).next) (LinkKey.str e) with
    | some tgt =>
        let ga := delRevPrev selfId tgt g ((g.data tgt).endpoints.map Prod.fst)
        ga.setNode selfId { ga.data selfId with
          next := alDel ((ga.data selfId).next) (LinkKey.str e) }
    | none => g
  match alGet? ((g1.data selfId).prev) (LinkKey.str e) with
  | some tgt =>
      let gb := delRevNext selfId tgt g1 ((g1.data tgt).endpoints.map Prod.fst)
      gb.setNode selfId { gb.data selfId with
        prev := alDel ((gb.data selfId).prev) (LinkKey.str e) }
  | none => g1

def discLoop (selfId : ℕ) : Graph → List String → Graph
  | g, [] => g
  | g, e :: rest => discLoop selfId (discStep g selfId e) rest

/-- `GDStructure.disconnect()`. -/
def disconnect (g : Graph) (selfId : ℕ) : Graph :=
  discLoop selfId g ((g.data selfId).endpoints.map Prod.fst)

/-- The child loop of `GDStructure.copy`: copy each `c` in `compound`, collect
the copies, and record each under `new_obj.next[i]`. -/
def copyFold (recur : Graph → ℕ → Option (Graph × ℕ)) :
    List ℕ → ℕ → Graph → ℕ → List ℕ → Option (Graph × List ℕ)
  | [], _, g, _, acc => some (g, acc)
  | c :: rest, i, g, newId, acc =>
      match recur g c with
      | none => none
      | some (g', cCopy) =>
          let g2 := g'.setNode newId { g'.data newId with
            next := alSet ((g'.data newId).next) (LinkKey.idx i) cCopy }
          copyFold recur rest (i + 1) g2 newId (acc ++ [cCopy])

/-- Body of `GDStructure.copy`: a fresh instance holding deep copies of the
four data fields (so empty link dicts and children), then the child loop and
the final `new_obj.compound = compound` assignment. -/
def copyBody (recur : Graph → ℕ → Option (Graph × ℕ)) (g : Graph) (id : ℕ) :
    Option (Graph × ℕ) :=
  let nd := g.data id
  let newId := g.freshId
  let g1 := g.addNode newId
    { struct := nd.struct, endpoints := nd.endpoints,
      endpoint_dims := nd.endpoint_dims, endpoint_directions := nd.endpoint_directions,
      compound := [], prev := [], next := [] }
  match copyFold recur nd.compound 0 g1 newId [] with
  | none => none
  | some (g2, comp) =>
      some (g2.setNode newId { g2.data newId with compound := comp }, newId)

/-- `GDStructure.copy()`, fuelled against `compound` cycles. -/
def copy : ℕ → Graph → ℕ → Option (Graph × ℕ) :=
  fun fuel =>
    Nat.rec (motive := fun _ => Graph → ℕ → Option (Graph × ℕ))
      (fun _ _ => none) (fun _ ih => copyBody ih) fuel

/-! ## The grid autorouter (`routing.py`) -/

/-- `routing.lookaround(index, row_len, pref)`: candidate neighbour indices
(up, down, left, right); the left neighbour is dropped in the first column;
`pref = 'x'` reverses the order. -/
def lookaround (index row_len : ℤ) (pref : String) : List ℤ :=
  let n := [index - row_len, index + row_len] ++
    (if index % row_len ≠ 0 then [index - 1] else []) ++ [index + 1]
  if pref = "x" then n.reverse else n

/-- `np.linspace a b n` over exact rationals. -/
def linspace (a b : ℚ) (n : ℕ) : List ℚ :=
  if n = 0 then []
  else if n = 1 then [a]
  else (List.range n).map (fun i => a + ((b - a) * i) / ((n : ℚ) - 1))

/-- The row-major lattice: `for y in yr: for x in xr: p.append((x, y))`. -/
def gridPoints (xr yr : List ℚ) : List (ℚ × ℚ) :=
  (yr.map (fun y => xr.map (fun x => (x, y)))).flatten

/-- Squared Euclidean distances of every lattice point to a port. -/
def distsSq (p : List (ℚ × ℚ)) (c : ℚ × ℚ) : List ℚ :=
  p.map (fun q => (q.1 - c.1) ^ 2 + (q.2 - c.2) ^ 2)

/-- `np.min` of a list (`none` = the `ValueError` on an empty selection). -/
def npMin : List ℚ → Option ℚ
  | [] => none
  | x :: t =>
      match npMin t with
      | none => some x
      | some m => some (if x ≤ m then x else m)

/-- `np.min(d[np.argwhere(inside == False)])`: minimum distance over the
points classified outside all structures (`none` where `np.min` of an empty
selection raises). -/
def minFree (d : List ℚ) (inside : List Bool) : Option ℚ :=
  npMin (((d.zip inside).filter (fun q => q.2 = false)).map Prod.fst)

/-- `np.argwhere(d == m)` flattened to a list of indices (ascending). -/
def seedIdx (d : List ℚ) (m : ℚ) : List ℤ :=
  ((List.range d.length).filter (fun i => decide (d.getD i 0 = m))).map Int.ofNat

/-- Working state of the wave loop: the step-label grid `p_g`, the frontier
being built (`next_start_i`), and the `path_found`/`final_index` flags. -/
structure WaveSt where
  p_g : List ℤ
  next_start : List ℤ
  path_found : Bool
  final_index : ℤ
deriving DecidableEq

/-- Grid reads/writes; the wave loop only reaches them at indices already
checked to satisfy `0 ≤ i < lp`. -/
def getI (l : List ℤ) (i : ℤ) : ℤ := l.getD i.toNat 0

def setI (l : List ℤ) (i : ℤ) (v : ℤ) : List ℤ := l.set i.toNat v

def getB (l : List Bool) (i : ℤ) : Bool := l.getD i.toNat false

/-- The inner `for nb in n:` loop of the wave propagation, including the
leading `if nb in end_i: ... break`, the combined skip test, and the
obstacle/frontier labelling. -/
def nbLoop (lxr lp : ℤ) (inside : List Bool) (end_i : List ℤ) (k : ℤ) (i : ℤ) :
    List ℤ → WaveSt → WaveSt
  | [], s => s
  | nb :: rest, s =>
      if nb ∈ end_i then
        { s with path_found := true, p_g := setI s.p_g nb k, final_index := nb }
      else if nb < 0 ∨ lp ≤ nb ∨ getI s.p_g nb ≠ 0 ∨
          (i % lxr = 0 ∧ nb % lxr = 1) ∨ (i % lxr = 1 ∧ nb % lxr = 0) then
        nbLoop lxr lp inside end_i k i rest s
      else if getB inside nb then
        nbLoop lxr lp inside end_i k i rest { s with p_g := setI s.p_g nb (-1) }
      else
        nbLoop lxr lp inside end_i k i rest
          { s with p_g := setI s.p_g nb k, next_start := s.next_start ++ [nb] }

/-- The `for i in start_i:` loop (it continues even after `path_found`). -/
def frontLoop (lxr lp : ℤ) (inside : List Bool) (end_i : List ℤ) (k : ℤ) (pref : String) :
    List ℤ → WaveSt → WaveSt
  | [], s => s
  | i :: rest, s =>
      frontLoop lxr lp inside end_i k pref rest
        (nbLoop lxr lp inside end_i k i (lookaround i lxr pref) s)

/-- The `while not path_found and start_i:` loop; fuel only bounds the number
of iterations.  Returns the state and the step count `k`. -/
def waveLoop (lxr lp : ℤ) (inside : List Bool) (end_i : List ℤ) (pref : String) :
    ℕ → List ℤ → WaveSt → ℤ → Option (WaveSt × ℤ) :=
  fun fuel =>
    Nat.rec (motive := fun _ => List ℤ → WaveSt → ℤ → Option (WaveSt × ℤ))
      (fun _ _ _ => none)
      (fun _ ih start_i s k =>
        if s.path_found = false ∧ start_i ≠ [] then
          let s1 := frontLoop lxr lp inside end_i (k + 1) pref start_i
            { s with next_start := [] }
          ih s1.next_start s1 (k + 1)
        else some (s, k))
      fuel

/-- Python list read with negative-index wraparound (the backtrace can probe
`p_g[nb]` for a negative `nb`; there `-lxr ≤ nb`, so the read is in range). -/
def pyGetI (l : List ℤ) (i : ℤ) (d : ℤ) : ℤ :=
  if 0 ≤ i then l.getD i.toNat d else l.getD (l.length + i).toNat d

def pyGetP (l : List (ℚ × ℚ)) (i : ℤ) : ℚ × ℚ :=
  if 0 ≤ i then l.getD i.toNat (0, 0) else l.getD (l.length + i).toNat (0, 0)

/-- Backtrace state. -/
structure BackSt where
  this_index : ℤ
  backtraced : List (ℚ × ℚ)
  pref : String
  switched : Bool
deriving DecidableEq

/-- First neighbour whose label equals `this_k` (`if nb < lp and
p_g[nb] == this_k: ... break`). -/
def backNb (lp : ℤ) (p_g : List ℤ) (this_k : ℤ) : List ℤ → Option ℤ
  | [] => none
  | nb :: rest =>
      if nb < lp ∧ pyGetI p_g nb (-2) = this_k then some nb
      else backNb lp p_g this_k rest

/-- One iteration of the backtrace loop body, including the one-shot axis
preference switch (Python truthiness: `switch_pref` may be `False`/`0`). -/
def backStep (lxr lp : ℤ) (p_g : List ℤ) (p : List (ℚ × ℚ)) (switch_pref : Option ℚ)
    (k : ℤ) (st : BackSt) (this_k : ℤ) : BackSt :=
  let st1 :=
    match switch_pref with
    | some q =>
        if q ≠ 0 ∧ st.switched = false ∧ (this_k : ℚ) < q * (k : ℚ) then
          { st with pref := if st.pref = "y" then "x" else "y", switched := true }
        else st
    | none => st
  match backNb lp p_g this_k (lookaround st1.this_index lxr st1.pref) with
  | some nb => { st1 with this_index := nb, backtraced := st1.backtraced ++ [pyGetP p nb] }
  | none => st1

def backLoop (lxr lp : ℤ) (p_g : List ℤ) (p : List (ℚ × ℚ)) (switch_pref : Option ℚ)
    (k : ℤ) : List ℤ → BackSt → BackSt
  | [], st => st
  | tk :: rest, st =>
      backLoop lxr lp p_g p switch_pref k rest (backStep lxr lp p_g p switch_pref k st tk)

/-- Python `range(k, -1, -1)`. -/
def descRange (k : ℤ) : List ℤ :=
  if k < 0 then [] else (List.range (k.toNat + 1)).map (fun i => k - i)

/-- Axis sample points: a caller-supplied explicit list, else
`np.linspace` over the expanded box (`none` = the `ValueError` numpy raises
for a negative sample count). -/
def resolveAxis (arg : Option (List ℚ)) (a b : ℚ) (n : ℤ) : Option (List ℚ) :=
  match arg with
  | some l => some l
  | none => if n < 0 then none else some (linspace a b n.toNat)

/-- The backtraced point list of `routing.router`: `[to, p[final_index]]`,
the backtrace loop, then the appended exact `fr` coordinate. -/
def routerBack (fr toP : ℚ × ℚ) (p : List (ℚ × ℚ)) (lxr lp : ℤ) (s : WaveSt) (k : ℤ)
    (pref : String) (switch_pref : Option ℚ) : List (ℚ × ℚ) :=
  (backLoop lxr lp s.p_g p switch_pref k (descRange k)
    ⟨s.final_index, [toP, pyGetP p s.final_index], pref, false⟩).backtraced ++ [fr]

/-- The width list of `routing.router` (`n` = `len(backtraced)`): port dims on
the two first and last points, nominal width inside; or the uniform width. -/
def routerWs (g : Graph) (fr_id to_id : ℕ) (fr_ep to_ep : String) (width : ℚ)
    (uniform_width : Bool) (n : ℕ) : Option (List ℚ ⊕ ℚ) :=
  if uniform_width = false then do
    let to_w ← alGet? ((g.data to_id).endpoint_dims) to_ep
    let fr_w ← alGet? ((g.data fr_id).endpoint_dims) fr_ep
    pure (Sum.inl (List.replicate 2 (to_w.getD width) ++ List.replicate (n - 4) width ++
      List.replicate 2 (fr_w.getD width)))
  else pure (Sum.inr width)

/-- The `pathmethod` dispatch (`none` = the `ValueError` branch). -/
def pathFlex (pathmt : String) : Option Bool :=
  if pathmt = "poly" then some false
  else if pathmt = "flex" then some true
  else none

/-- Path-structure construction and the four linked-list updates of
`routing.router` (all total). -/
def routerLink (g : Graph) (fr_id to_id : ℕ) (width : ℚ) (backtraced : List (ℚ × ℚ))
    (ws : List ℚ ⊕ ℚ) (flex : Bool) : Graph × ℕ :=
  let epszA := match ws with | Sum.inl l => l.headD 0 | Sum.inr _ => width
  let epszB := match ws with | Sum.inl l => l.getLastD 0 | Sum.inr _ => width
  let newId := g.freshId
  let g1 := g.addNode newId
    { struct := [GeomOp.pathOp backtraced ws flex],
      endpoints := [("A", backtraced.headD (0, 0)), ("B", backtraced.getLastD (0, 0))],
      endpoint_dims := [("A", some epszA), ("B", some epszB)],
      endpoint_directions := none, compound := [], prev := [], next := [] }
  let g2 := g1.setNode fr_id { g1.data fr_id with
    next := alSet ((g1.data fr_id).next) (LinkKey.str "AUTOROUTE_A") newId }
  let g3 := g2.setNode to_id { g2.data to_id with
    next := alSet ((g2.data to_id).next) (LinkKey.str "AUTOROUTE_B") newId }
  let g4 := g3.setNode newId { g3.data newId with
    prev := alSet ((g3.data newId).prev) (LinkKey.str "AUTOROUTE_A") fr_id }
  let g5 := g4.setNode newId { g4.data newId with
    prev := alSet ((g4.data newId).prev) (LinkKey.str "AUTOROUTE_B") to_id }
  (g5, newId)

/-- The success tail of `routing.router`: everything after the
`if not path_found:` check — backtrace, width list, path construction, and
the final linked-list updates. -/
def routerTail (g : Graph) (fr_id : ℕ) (fr_ep : String) (to_id : ℕ) (to_ep : String)
    (width : ℚ) (uniform_width : Bool) (pref : String) (switch_pref : Option ℚ)
    (pathmt : String) (fr toP : ℚ × ℚ) (p : List (ℚ × ℚ)) (lxr lp : ℤ)
    (s : WaveSt) (k : ℤ) : Option (Graph × Option ℕ) := do
  let backtraced := routerBack fr toP p lxr lp s k pref switch_pref
  let ws ← routerWs g fr_id to_id fr_ep to_ep width uniform_width backtraced.length
  let flex ← pathFlex pathmt
  pure ((routerLink g fr_id to_id width backtraced ws flex).1,
    some (routerLink g fr_id to_id width backtraced ws flex).2)

/-- `routing.router`.  The gdspy cell and its point-in-structure test are
external collaborators, abstracted as `insideFn` (`detect = 'native'`; the
`'custom'` probe variant and the `debug` visualisation only change that
classification or draw on the cell).  Result: `none` where Python raises,
`some (g, none)` for the `return False` no-route case, `some (g', some id)`
on success. -/
def router (fuel : ℕ) (g : Graph) (fr_id : ℕ) (fr_ep : String) (to_id : ℕ) (to_ep : String)
    (width : ℚ) (bmul : ℚ) (grid_s : ℚ) (xrArg yrArg : Option (List ℚ))
    (uniform_width : Bool) (pref : String) (switch_pref : Option ℚ)
    (pathmt : String) (insideFn : List (ℚ × ℚ) → List Bool) :
    Option (Graph × Option ℕ) := do
  let fr ← alGet? ((g.data fr_id).endpoints) fr_ep
  let toP ← alGet? ((g.data to_id).endpoints) to_ep
  let border_s := bmul * grid_s
  let box0 : ℚ × ℚ := (minQ fr.1 toP.1 - border_s, maxQ fr.2 toP.2 + border_s)
  let box1 : ℚ × ℚ := (maxQ fr.1 toP.1 + border_s, minQ fr.2 toP.2 - border_s)
  let lxr0 : ℤ := pyInt ((box1.1 - box0.1) / grid_s) + 1
  let lyr0 : ℤ := pyInt ((box0.2 - box1.2) / grid_s) + 1
  let xr ← resolveAxis xrArg box0.1 box1.1 lxr0
  let yr ← resolveAxis yrArg box0.2 box1.2 lyr0
  let lxr : ℤ := (xr.length : ℤ)
  let p := gridPoints xr yr
  let p_d_fr := distsSq p fr
  let p_d_to := distsSq p toP
  let inside := insideFn p
  let p_d_fr_min ← minFree p_d_fr inside
  let p_d_to_min ← minFree p_d_to inside
  let start_i := seedIdx p_d_fr p_d_fr_min
  let end_i := seedIdx p_d_to p_d_to_min
  let lp : ℤ := (p.length : ℤ)
  let s0 : WaveSt := ⟨List.replicate p.length 0, [], false, 0⟩
  let (s, k) ← waveLoop lxr lp inside end_i pref fuel start_i s0 0
  if s.path_found = false then
    -- `print('>> ERROR: No existing route was found.'); return False`
    pure (g, none)
  else
    routerTail g fr_id fr_ep to_id to_ep width uniform_width pref switch_pref pathmt
      fr toP p lxr lp s k

/-- The no-route contract of `router`: whenever the call returns the
`return False` outcome, the heap it hands back is the input heap. -/
def NoRouteUnchanged (g : Graph) (e : Option (Graph × Option ℕ)) : Prop :=
  match e with
  | some (g', none) => g' = g
  | _ => True

/-! ### Concrete instances used in the checks -/

/-- Heap slots that hold no object. -/
def blankNode : GDSNode := ⟨[], [], [], none, [], [], []⟩

/-- A fixed interpretation of the trigonometric collaborators for concrete
runs (no result below depends on its values). -/
def trig0 : Trig := ⟨fun _ => 1, fun _ => 0⟩

/-- A two-object heap. -/
def mk2 (a b : GDSNode) : Graph :=
  ⟨[0, 1], fun n => if n = 0 then a else if n = 1 then b else blankNode⟩

/-- An obstacle-free cell: `gdspy.inside` answers `False` for every probe. -/
def allFreeFn : List (ℚ × ℚ) → List Bool := fun p => List.replicate p.length false

/-- Two structures whose ports `(2, 0)` and `(1, 1)` sit on the explicit
`xr = [0, 1, 2]`, `yr = [0, 1]` lattice (the row-wrap check instance). -/
def gC1 : Graph :=
  mk2 ⟨[], [("P", (2, 0))], [("P", some 1)], none, [], [], []⟩
      ⟨[], [("Q", (1, 1))], [("Q", some 1)], none, [], [], []⟩

/-- `connect` instance: `self` has no direction data, `other` has some. -/
def gC3 : Graph :=
  mk2 ⟨[], [("a", (0, 0))], [("a", some 1)], none, [], [], []⟩
      ⟨[], [("b", (3, 4))], [("b", some 1)], some [("b", 7)], [], [], []⟩

/-- `connect` instance: both sides carry direction data. -/
def gC3b : Graph :=
  mk2 ⟨[], [("a", (0, 0))], [("a", some 1)], some [("a", 5)], [], [], []⟩
      ⟨[], [("b", (3, 4))], [("b", some 1)], some [("b", 7)], [], [], []⟩

/-- A cyclic link graph: object 0 lists 1 as predecessor, 1 lists 0 as
successor (`A ↔ B`). -/
def gC5 : Graph :=
  mk2 ⟨[], [("a", (1, 0))], [("a", some 1)], none, [], [(LinkKey.str "a", 1)], []⟩
      ⟨[], [("b", (1, 0))], [("b", some 1)], none, [], [], [(LinkKey.str "b", 0)]⟩

/-- Plain two-port instance for the connect/disconnect round trip. -/
def gC6 : Graph :=
  mk2 ⟨[], [("a", (0, 0))], [("a", some 1)], none, [], [], []⟩
      ⟨[], [("b", (3, 4))], [("b", some 1)], none, [], [], []⟩

/-- A structure with one child (`compound = [1]`), for `copy`. -/
def gC7 : Graph :=
  mk2 ⟨[GeomOp.rot 1], [("a", (0, 0))], [("a", some 1)], none, [1], [], [(LinkKey.str "x", 1)]⟩
      ⟨[], [("b", (3, 4))], [("b", some 1)], none, [], [], []⟩

/-- A heap wired the way `router` and `cluster` leave it: a routed structure
(object 1) linked under `AUTOROUTE_*` keys, plus an object-keyed link. -/
def gC10 : Graph :=
  mk2 ⟨[], [("A", (0, 0))], [("A", some 1)], none, [],
        [(LinkKey.obj 1, 1)], [(LinkKey.str "AUTOROUTE_A", 1)]⟩
      ⟨[], [("A", (0, 0)), ("B", (1, 0))], [("A", some 1), ("B", some 1)], none, [],
        [(LinkKey.str "AUTOROUTE_A", 0), (LinkKey.str "COMPOUND_0", 0)], []⟩

/-- The frame property of a transform ripple: whenever it returns, every
node's link dicts, dimension dict, endpoint key set and children are
untouched. -/
def TransformKeepsLinks (g : Graph) (o : Option PropRes) : Prop :=
  match o with
  | none => True
  | some r => ∀ n, LinkEq (g.data n) (r.1.data n)

/-- Evolution `g ⇝ g'` in which every node keeps its endpoints dict and every
`prev`/`next` entry whose key is not a string endpoint name of its own node
keeps its value. -/
def DiscSafe (g g' : Graph) : Prop :=
  (∀ n, (g'.data n).endpoints = (g.data n).endpoints) ∧
  (∀ B k, (∀ e ∈ ((g.data B).endpoints).map Prod.fst, k ≠ LinkKey.str e) →
    alGet? ((g'.data B).prev) k = alGet? ((g.data B).prev) k ∧
    alGet? ((g'.data B).next) k = alGet? ((g.data B).next) k)

/-- Evolution in which link entries are only ever removed, never added or
redirected. -/
def OnlyDeletes (g g' : Graph) : Prop :=
  ∀ B k,
    (alGet? ((g'.data B).prev) k = alGet? ((g.data B).prev) k ∨
      alGet? ((g'.data B).prev) k = none) ∧
    (alGet? ((g'.data B).next) k = alGet? ((g.data B).next) k ∨
      alGet? ((g'.data B).next) k = none)

/-- `del node.next[e]` on one node, under a string key. -/
def delNextAt (g : Graph) (s : ℕ) (e : String) : Graph :=
  g.setNode s { g.data s with next := alDel ((g.data s).next) (LinkKey.str e) }

/-- `del node.prev[e]` on one node, under a string key. -/
def delPrevAt (g : Graph) (s : ℕ) (e : String) : Graph :=
  g.setNode s { g.data s with prev := alDel ((g.data s).prev) (LinkKey.str e) }

/-- The `if e in self.next:` half of one `disconnect` iteration. -/
def discStepNext (g : Graph) (selfId : ℕ) (e : String) : Graph :=
  match alGet? ((g.data selfId).next) (LinkKey.str e) with
  | some tgt => delNextAt (delRevPrev selfId tgt g ((g.data tgt).endpoints.map Prod.fst)) selfId e
  | none => g

/-- The `if e in self.prev:` half of one `disconnect` iteration. -/
def discStepPrev (g : Graph) (selfId : ℕ) (e : String) : Graph :=
  match alGet? ((g.data selfId).prev) (LinkKey.str e) with
  | some tgt => delPrevAt (delRevNext selfId tgt g ((g.data tgt).endpoints.map Prod.fst)) selfId e
  | none => g

/-- The two linked-list updates at the end of `connect`
(`to.next[...] = self; self.prev[...] = to`), over an arbitrary pair of keys. -/
def linkNodes (g2 : Graph) (selfId : ℕ) (kPrev : LinkKey) (toId : ℕ) (kNext : LinkKey) :
    Graph :=
  (g2.setNode toId { g2.data toId with
    next := alSet ((g2.data toId).next) kNext selfId }).setNode selfId
    { (g2.setNode toId { g2.data toId with
        next := alSet ((g2.data toId).next) kNext selfId }).data selfId with
      prev := alSet (((g2.setNode toId { g2.data toId with
        next := alSet ((g2.data toId).next) kNext selfId }).data selfId).prev) kPrev toId }

/-- The heap produced by the connect/disconnect round-trip instance. -/
def gC6r : Graph :=
  (connect trig0 5 gC6 0 "a" 1 "b" (0, 0) false true).getD gC6

/-- The heap produced by copying the compound structure of `gC7`. -/
def gC7r : Graph :=
  ((copy 3 gC7 0).map Prod.fst).getD gC7

/-! ## Lemmas -/

@[simp] theorem alGet?_nil (k : κ) : alGet? ([] : List (κ × ν)) k = none := rfl

theorem alGet?_cons (k' : κ) (v : ν) (t : List (κ × ν)) (k : κ) :
    alGet? ((k', v) :: t) k = if k' = k then some v else alGet? t k := rfl

theorem alGet?_alDel (l : List (κ × ν)) (k k' : κ) :
    alGet? (alDel l k') k = if k = k' then none else alGet? l k := by
  induction l with
  | nil => simp [alDel]
  | cons p t ih =>
    obtain ⟨a, b⟩ := p
    by_cases hak : a = k'
    · have hd : alDel ((a, b) :: t) k' = alDel t k' := by
        simp [alDel, List.filter_cons, hak]
      rw [hd, ih]
      by_cases hkk : k = k'
      · simp [hkk]
      · have hka : a ≠ k := fun h => hkk (by rw [← h, hak])
        simp [hkk, alGet?_cons, hka]
    · have hd : alDel ((a, b) :: t) k' = (a, b) :: alDel t k' := by
        simp [alDel, List.filter_cons, hak]
      rw [hd, alGet?_cons, alGet?_cons, ih]
      by_cases hka : a = k
      · have hkk : k ≠ k' := fun h => hak (by rw [hka, h])
        simp [hka, hkk]
      · simp [hka]

theorem alGet?_alSet_self (l : List (κ × ν)) (k : κ) (v : ν) :
    alGet? (alSet l k v) k = some v := by
  induction l with
  | nil => simp [alSet, alGet?_cons]
  | cons p t ih =>
    obtain ⟨a, b⟩ := p
    by_cases hak : a = k <;> simp_all [alSet, alGet?_cons]

theorem alGet?_alSet_ne (l : List (κ × ν)) (k k' : κ) (v : ν) (h : k' ≠ k) :
    alGet? (alSet l k' v) k = alGet? l k := by
  induction l with
  | nil => simp [alSet, alGet?_cons, h]
  | cons p t ih =>
    obtain ⟨a, b⟩ := p
    by_cases hak : a = k'
    · subst hak
      simp [alSet, alGet?_cons, h]
    · simp [alSet, hak, alGet?_cons, ih]

omit [DecidableEq κ] in

theorem alMap_keys (f : ν → ν) (l : List (κ × ν)) :
    (alMap f l).map Prod.fst = l.map Prod.fst := by
  induction l with
  | nil => rfl
  | cons p t ih => simp_all [alMap]

theorem alGet?_alMap (f : ν → ν) (l : List (κ × ν)) (k : κ) :
    alGet? (alMap f l) k = (alGet? l k).map f := by
  induction l with
  | nil => rfl
  | cons p t ih =>
    obtain ⟨a, b⟩ := p
    by_cases hak : a = k <;> simp_all [alMap, alGet?_cons]

theorem alUpd_keys (l : List (κ × ν)) (k : κ) (f : ν → ν) (l' : List (κ × ν))
    (h : alUpd l k f = some l') : l'.map Prod.fst = l.map Prod.fst := by
  induction l generalizing l' with
  | nil => simp [alUpd] at h
  | cons p t ih =>
    obtain ⟨a, b⟩ := p
    simp only [alUpd] at h
    split at h
    · rename_i hak
      rw [Option.some.injEq] at h
      subst h
      simp [hak]
    · rw [Option.map_eq_some'] at h
      obtain ⟨t', ht', rfl⟩ := h
      simp [ih t' ht']

theorem alUpd_isSome_of_mem (l : List (κ × ν)) (k : κ) (f : ν → ν)
    (h : k ∈ l.map Prod.fst) : (alUpd l k f).isSome := by
  induction l with
  | nil => simp at h
  | cons p t ih =>
    obtain ⟨a, b⟩ := p
    by_cases hak : a = k
    · simp [alUpd, hak]
    · simp only [List.map_cons, List.mem_cons] at h
      rcases h with h | h
      · exact absurd h.symm hak
      · have := ih h
        simp only [alUpd, if_neg hak]
        rcases Option.isSome_iff_exists.mp this with ⟨t', ht'⟩
        simp [ht']

@[simp] theorem Graph.setNode_nodes (g : Graph) (id : ℕ) (nd : GDSNode) :
    (g.setNode id nd).nodes = g.nodes := rfl

@[simp] theorem Graph.setNode_data_self (g : Graph) (id : ℕ) (nd : GDSNode) :
    (g.setNode id nd).data id = nd := by simp [Graph.setNode]

theorem Graph.setNode_data_ne (g : Graph) (id : ℕ) (nd : GDSNode) (n : ℕ) (h : n ≠ id) :
    (g.setNode id nd).data n = g.data n := by simp [Graph.setNode, h]

theorem propGo_zero {σ : Type} (f : GDSNode → σ → Option (GDSNode × σ))
    (g : Graph) (id : ℕ) (st : σ) (v l : List ℕ) :
    propGo f 0 g id st v l = none := rfl

theorem propGo_succ {σ : Type} (f : GDSNode → σ → Option (GDSNode × σ)) (fuel : ℕ)
    (g : Graph) (id : ℕ) (st : σ) (v l : List ℕ) :
    propGo f (fuel + 1) g id st v l = propBody f (propGo f fuel) g id st v l := rfl

theorem LinkEq_refl (nd : GDSNode) : LinkEq nd nd := ⟨rfl, rfl, rfl, rfl, rfl⟩

theorem LinkEq_trans {a b c : GDSNode} (h1 : LinkEq a b) (h2 : LinkEq b c) : LinkEq a c := by
  obtain ⟨p1, n1, d1, e1, c1⟩ := h1
  obtain ⟨p2, n2, d2, e2, c2⟩ := h2
  exact ⟨p2.trans p1, n2.trans n1, d2.trans d1, e2.trans e1, c2.trans c1⟩

theorem GraphLE_refl (g : Graph) : GraphLE g g := ⟨rfl, fun _ => LinkEq_refl _⟩

theorem GraphLE_trans {a b c : Graph} (h1 : GraphLE a b) (h2 : GraphLE b c) : GraphLE a c :=
  ⟨h2.1.trans h1.1, fun n => LinkEq_trans (h1.2 n) (h2.2 n)⟩

theorem GraphLE.setNode {g : Graph} {id : ℕ} {nd : GDSNode}
    (h : LinkEq (g.data id) nd) : GraphLE g (g.setNode id nd) := by
  refine ⟨rfl, fun n => ?_⟩
  by_cases hn : n = id
  · subst hn; simpa [Graph.setNode] using h
  · rw [Graph.setNode_data_ne g id nd n hn]; exact LinkEq_refl _

theorem propFold_pres (recur : Graph → ℕ → List ℕ → List ℕ → Option PropRes)
    (hrec : ∀ g n v l r, recur g n v l = some r → GraphLE g r.1) :
    ∀ targets g v l r, propFold recur targets g v l = some r → GraphLE g r.1 := by
  intro targets
  induction targets with
  | nil =>
    intro g v l r h
    simp only [propFold, Option.some.injEq] at h
    subst h; exact GraphLE_refl g
  | cons p rest ih =>
    intro g v l r h
    obtain ⟨k, n⟩ := p
    simp only [propFold] at h
    split at h
    · exact ih g v l r h
    · cases heq : recur g n (v ++ [n]) l with
      | none => rw [heq] at h; cases h
      | some r' =>
        rw [heq] at h
        obtain ⟨g', v', l'⟩ := r'
        exact GraphLE_trans (hrec g n (v ++ [n]) l _ heq) (ih g' v' l' r h)

theorem propGo_pres {σ : Type} (f : GDSNode → σ → Option (GDSNode × σ))
    (hf : PreservesLinks f) :
    ∀ fuel g id st v l r, propGo f fuel g id st v l = some r → GraphLE g r.1 := by
  intro fuel
  induction fuel with
  | zero => intro g id st v l r h; rw [propGo_zero] at h; cases h
  | succ fuel ih =>
    intro g id st v l r h
    rw [propGo_succ] at h
    unfold propBody at h
    cases hstep : f (g.data id) st with
    | none => rw [hstep] at h; cases h
    | some p =>
      obtain ⟨nd', st'⟩ := p
      rw [hstep] at h
      simp only at h
      have hle1 : GraphLE g (g.setNode id nd') :=
        GraphLE.setNode (hf (g.data id) st nd' st' hstep)
      cases hfold : propFold (fun g2 n v l => propGo f fuel g2 n st' v l)
          ((g.setNode id nd').data id).prev (g.setNode id nd')
          (if id ∈ v then v else v ++ [id]) (l ++ [id]) with
      | none => rw [hfold] at h; cases h
      | some r2 =>
        rw [hfold] at h
        obtain ⟨g2, v2, l2⟩ := r2
        have hle2 := propFold_pres _ (fun g n v l r hh => ih g n st' v l r hh) _ _ _ _ _ hfold
        have hle3 := propFold_pres _ (fun g n v l r hh => ih g n st' v l r hh) _ _ _ _ _ h
        exact GraphLE_trans (GraphLE_trans hle1 hle2) hle3

theorem propFold_ext (recur : Graph → ℕ → List ℕ → List ℕ → Option PropRes)
    (hrec : ∀ g n v l r, recur g n v l = some r → ∃ t, r.2.1 = v ++ t) :
    ∀ targets g v l r, propFold recur targets g v l = some r → ∃ t, r.2.1 = v ++ t := by
  intro targets
  induction targets with
  | nil =>
    intro g v l r h
    simp only [propFold, Option.some.injEq] at h
    subst h; exact ⟨[], by simp⟩
  | cons p rest ih =>
    intro g v l r h
    obtain ⟨k, n⟩ := p
    simp only [propFold] at h
    split at h
    · exact ih g v l r h
    · cases heq : recur g n (v ++ [n]) l with
      | none => rw [heq] at h; cases h
      | some r' =>
        rw [heq] at h
        obtain ⟨g', v', l'⟩ := r'
        obtain ⟨t1, ht1⟩ := hrec g n (v ++ [n]) l _ heq
        obtain ⟨t2, ht2⟩ := ih g' v' l' r h
        exact ⟨[n] ++ t1 ++ t2, by simp only at ht1; rw [ht2, ht1]; simp⟩

theorem propGo_ext {σ : Type} (f : GDSNode → σ → Option (GDSNode × σ)) :
    ∀ fuel g id st v l r, propGo f fuel g id st v l = some r → ∃ t, r.2.1 = v ++ t := by
  intro fuel
  induction fuel with
  | zero => intro g id st v l r h; rw [propGo_zero] at h; cases h
  | succ fuel ih =>
    intro g id st v l r h
    rw [propGo_succ] at h
    unfold propBody at h
    cases hstep : f (g.data id) st with
    | none => rw [hstep] at h; cases h
    | some p =>
      obtain ⟨nd', st'⟩ := p
      rw [hstep] at h
      simp only at h
      cases hfold : propFold (fun g2 n v l => propGo f fuel g2 n st' v l)
          ((g.setNode id nd').data id).prev (g.setNode id nd')
          (if id ∈ v then v else v ++ [id]) (l ++ [id]) with
      | none => rw [hfold] at h; cases h
      | some r2 =>
        rw [hfold] at h
        obtain ⟨g2, v2, l2⟩ := r2
        obtain ⟨t1, ht1⟩ := propFold_ext _ (fun g n v l r hh => ih g n st' v l r hh) _ _ _ _ _ hfold
        obtain ⟨t2, ht2⟩ := propFold_ext _ (fun g n v l r hh => ih g n st' v l r hh) _ _ _ _ _ h
        simp only at ht1
        by_cases hid : id ∈ v
        · rw [if_pos hid] at ht1
          exact ⟨t1 ++ t2, by rw [ht2, ht1]; simp⟩
        · rw [if_neg hid] at ht1
          exact ⟨[id] ++ t1 ++ t2, by rw [ht2, ht1]; simp⟩

/-- Log bookkeeping for the visited-set argument: logs stay duplicate-free and
stay inside the visited list. -/
theorem propFold_log (recur : Graph → ℕ → List ℕ → List ℕ → Option PropRes)
    (hrec : ∀ g n v l r, (∀ x ∈ l, x ∈ v) → n ∉ l → l.Nodup → recur g n v l = some r →
      r.2.2.Nodup ∧ (∀ x ∈ r.2.2, x ∈ r.2.1) ∧ (∃ t, r.2.1 = v ++ t)) :
    ∀ targets g v l r, (∀ x ∈ l, x ∈ v) → l.Nodup → propFold recur targets g v l = some r →
      r.2.2.Nodup ∧ (∀ x ∈ r.2.2, x ∈ r.2.1) ∧ (∃ t, r.2.1 = v ++ t) := by
  intro targets
  induction targets with
  | nil =>
    intro g v l r hlv hnd h
    simp only [propFold, Option.some.injEq] at h
    subst h; exact ⟨hnd, hlv, ⟨[], by simp⟩⟩
  | cons p rest ih =>
    intro g v l r hlv hnd h
    obtain ⟨k, n⟩ := p
    simp only [propFold] at h
    split at h
    · exact ih g v l r hlv hnd h
    · rename_i hnv
      cases heq : recur g n (v ++ [n]) l with
      | none => rw [heq] at h; cases h
      | some r' =>
        rw [heq] at h
        obtain ⟨g', v', l'⟩ := r'
        have hnl : n ∉ l := fun hmem => hnv (hlv n hmem)
        have hlv' : ∀ x ∈ l, x ∈ v ++ [n] := fun x hx => List.mem_append_left _ (hlv x hx)
        obtain ⟨hnd1, hsub1, t1, ht1⟩ := hrec g n (v ++ [n]) l _ hlv' hnl hnd heq
        simp only at hnd1 hsub1 ht1
        obtain ⟨hnd2, hsub2, t2, ht2⟩ := ih g' v' l' r hsub1 hnd1 h
        refine ⟨hnd2, hsub2, ⟨[n] ++ t1 ++ t2, ?_⟩⟩
        rw [ht2, ht1]; simp

theorem propGo_log {σ : Type} (f : GDSNode → σ → Option (GDSNode × σ)) :
    ∀ fuel g id st v l r, (∀ x ∈ l, x ∈ v) → id ∉ l → l.Nodup →
      propGo f fuel g id st v l = some r →
      r.2.2.Nodup ∧ (∀ x ∈ r.2.2, x ∈ r.2.1) ∧ (∃ t, r.2.1 = v ++ t) := by
  intro fuel
  induction fuel with
  | zero => intro g id st v l r _ _ _ h; rw [propGo_zero] at h; cases h
  | succ fuel ih =>
    intro g id st v l r hlv hidl hnd h
    rw [propGo_succ] at h
    unfold propBody at h
    cases hstep : f (g.data id) st with
    | none => rw [hstep] at h; cases h
    | some p =>
      obtain ⟨nd', st'⟩ := p
      rw [hstep] at h
      simp only at h
      have hid1 : id ∈ (if id ∈ v then v else v ++ [id]) := by
        by_cases hid : id ∈ v <;> simp [hid]
      have hv1 : ∀ x ∈ v, x ∈ (if id ∈ v then v else v ++ [id]) := by
        intro x hx; by_cases hid : id ∈ v <;> simp [hid, hx]
      have hlog1 : ∀ x ∈ l ++ [id], x ∈ (if id ∈ v then v else v ++ [id]) := by
        intro x hx
        rcases List.mem_append.mp hx with hx | hx
        · exact hv1 x (hlv x hx)
        · rw [List.mem_singleton.mp hx]; exact hid1
      have hnd1 : (l ++ [id]).Nodup := by
        rw [List.nodup_append]
        exact ⟨hnd, List.nodup_singleton id,
          fun a ha hb => (List.mem_singleton.mp hb ▸ hidl) ha⟩
      cases hfold : propFold (fun g2 n v l => propGo f fuel g2 n st' v l)
          ((g.setNode id nd').data id).prev (g.setNode id nd')
          (if id ∈ v then v else v ++ [id]) (l ++ [id]) with
      | none => rw [hfold] at h; cases h
      | some r2 =>
        rw [hfold] at h
        obtain ⟨g2, v2, l2⟩ := r2
        obtain ⟨hnd2, hsub2, t1, ht1⟩ :=
          propFold_log _ (fun g n v l r hh1 hh2 hh3 hh4 => ih g n st' v l r hh1 hh2 hh3 hh4)
            _ _ _ _ _ hlog1 hnd1 hfold
        simp only at hnd2 hsub2 ht1
        obtain ⟨hnd3, hsub3, t2, ht2⟩ :=
          propFold_log _ (fun g n v l r hh1 hh2 hh3 hh4 => ih g n st' v l r hh1 hh2 hh3 hh4)
            _ _ _ _ _ hsub2 hnd2 h
        refine ⟨hnd3, hsub3, ?_⟩
        by_cases hid : id ∈ v
        · rw [if_pos hid] at ht1
          exact ⟨t1 ++ t2, by rw [ht2, ht1]; simp⟩
        · rw [if_neg hid] at ht1
          exact ⟨[id] ++ t1 ++ t2, by rw [ht2, ht1]; simp⟩

theorem filter_length_mono {α : Type} (l : List α) (p q : α → Bool)
    (h : ∀ a, p a = true → q a = true) :
    (l.filter p).length ≤ (l.filter q).length := by
  induction l with
  | nil => simp
  | cons a t ih =>
    by_cases hp : p a = true
    · simp [List.filter_cons, hp, h a hp, Nat.succ_le_succ ih]
    · rw [List.filter_cons, if_neg (by simpa using hp)]
      by_cases hq : q a = true
      · rw [List.filter_cons, if_pos (by simpa using hq)]
        exact ih.trans (Nat.le_succ _)
      · rw [List.filter_cons, if_neg (by simpa using hq)]
        exact ih

theorem CU_ext_le (g : Graph) (v t : List ℕ) : CU g (v ++ t) ≤ CU g v := by
  refine filter_length_mono _ _ _ (fun a ha => ?_)
  simp only [decide_eq_true_eq] at ha ⊢
  exact fun hmem => ha (List.mem_append_left _ hmem)

theorem CU_nodes_eq {g g' : Graph} (h : g'.nodes = g.nodes) (v : List ℕ) :
    CU g' v = CU g v := by
  unfold CU; rw [h]

theorem filter_notmem_append_lt (l v : List ℕ) (n : ℕ) (hn : n ∈ l) (hv : n ∉ v) :
    (l.filter (fun x => decide (x ∉ v ++ [n]))).length <
      (l.filter (fun x => decide (x ∉ v))).length := by
  induction l with
  | nil => simp at hn
  | cons a t ih =>
    by_cases han : a = n
    · subst han
      have h1 : ¬(decide (a ∉ v ++ [a]) = true) := by
        simp only [decide_eq_true_eq, not_not]
        exact List.mem_append_right _ (List.mem_singleton_self a)
      have h2 : decide (a ∉ v) = true := by simpa using hv
      rw [List.filter_cons, List.filter_cons, if_neg h1, if_pos h2]
      exact Nat.lt_succ_of_le (filter_length_mono t _ _ (fun x hx => by
        simp only [decide_eq_true_eq] at hx ⊢
        exact fun hmem => hx (List.mem_append_left _ hmem)))
    · have hn' : n ∈ t := by
        rcases List.mem_cons.mp hn with h | h
        · exact absurd h.symm han
        · exact h
      have step := ih hn'
      by_cases hav : a ∈ v
      · have h1 : ¬(decide (a ∉ v ++ [n]) = true) := by
          simp only [decide_eq_true_eq, not_not]
          exact List.mem_append_left _ hav
        have h2 : ¬(decide (a ∉ v) = true) := by
          simp only [decide_eq_true_eq, not_not]
          exact hav
        rw [List.filter_cons, List.filter_cons, if_neg h1, if_neg h2]
        exact step
      · have havn : a ∉ v ++ [n] := by
          simp only [List.mem_append, List.mem_singleton]
          rintro (h | h)
          · exact hav h
          · exact han h
        have h1 : decide (a ∉ v ++ [n]) = true := by simpa using havn
        have h2 : decide (a ∉ v) = true := by simpa using hav
        rw [List.filter_cons, List.filter_cons, if_pos h1, if_pos h2]
        exact Nat.succ_lt_succ step

theorem CU_append_lt (g : Graph) (v : List ℕ) (n : ℕ) (hn : n ∈ g.nodes) (hv : n ∉ v) :
    CU g (v ++ [n]) < CU g v :=
  filter_notmem_append_lt g.nodes v n hn hv

theorem ClosedP_setNode {P : GDSNode → Prop} {g : Graph} {id : ℕ} {nd : GDSNode}
    (hg : ClosedP P g) (hl : LinkEq (g.data id) nd) (hp : P nd) :
    ClosedP P (g.setNode id nd) := by
  intro id' hid'
  rw [Graph.setNode_nodes] at hid'
  by_cases h : id' = id
  · subst h
    rw [Graph.setNode_data_self, Graph.setNode_nodes]
    exact ⟨fun p hp' => (hg id' hid').1 p (hl.1 ▸ hp'), fun p hp' => (hg id' hid').2.1 p (hl.2.1 ▸ hp'), hp⟩
  · rw [Graph.setNode_data_ne g id nd id' h, Graph.setNode_nodes]
    exact hg id' hid'

theorem propFold_total {P : GDSNode → Prop} (B : ℕ)
    (recur : Graph → ℕ → List ℕ → List ℕ → Option PropRes)
    (hrec : ∀ g n v l, ClosedP P g → n ∈ g.nodes → CU g v < B →
      ∃ r, recur g n v l = some r ∧ ClosedP P r.1 ∧ GraphLE g r.1 ∧ ∃ t, r.2.1 = v ++ t) :
    ∀ targets g v l, ClosedP P g → (∀ p ∈ targets, p.2 ∈ g.nodes) → CU g v ≤ B →
      ∃ r, propFold recur targets g v l = some r ∧ ClosedP P r.1 ∧ GraphLE g r.1 ∧
        ∃ t, r.2.1 = v ++ t := by
  intro targets
  induction targets with
  | nil =>
    intro g v l hg _ _
    exact ⟨(g, v, l), rfl, hg, GraphLE_refl g, ⟨[], by simp⟩⟩
  | cons p rest ih =>
    intro g v l hg htg hb
    obtain ⟨k, n⟩ := p
    by_cases hnv : n ∈ v
    · obtain ⟨r, hr, hc, hle, t, ht⟩ := ih g v l hg (fun p hp => htg p (List.mem_cons_of_mem _ hp)) hb
      exact ⟨r, by simp only [propFold, if_pos hnv]; exact hr, hc, hle, t, ht⟩
    · have hnn : n ∈ g.nodes := htg (k, n) (List.mem_cons_self _ _)
      have hlt : CU g (v ++ [n]) < B :=
        Nat.lt_of_lt_of_le (CU_append_lt g v n hnn hnv) hb
      obtain ⟨r1, hr1, hc1, hle1, t1, ht1⟩ := hrec g n (v ++ [n]) l hg hnn hlt
      obtain ⟨g1, v1, l1⟩ := r1
      simp only at hc1 hle1 ht1
      have hb1 : CU g1 v1 ≤ B := by
        rw [CU_nodes_eq hle1.1, ht1]
        exact (CU_ext_le g (v ++ [n]) t1).trans
          ((Nat.le_of_lt (CU_append_lt g v n hnn hnv)).trans hb)
      have htg1 : ∀ p ∈ rest, p.2 ∈ g1.nodes := by
        intro p hp; rw [hle1.1]; exact htg p (List.mem_cons_of_mem _ hp)
      obtain ⟨r2, hr2, hc2, hle2, t2, ht2⟩ := ih g1 v1 l1 hc1 htg1 hb1
      refine ⟨r2, ?_, hc2, GraphLE_trans hle1 hle2, ⟨[n] ++ t1 ++ t2, ?_⟩⟩
      · simp only [propFold, if_neg hnv, hr1]
        exact hr2
      · rw [ht2, ht1]; simp

theorem propGo_total {σ : Type} {P : GDSNode → Prop} (f : GDSNode → σ → Option (GDSNode × σ))
    (hf : StepTotal P f) :
    ∀ fuel g id st v l, ClosedP P g → id ∈ g.nodes → CU g v < fuel →
      ∃ r, propGo f fuel g id st v l = some r ∧ ClosedP P r.1 ∧ GraphLE g r.1 ∧
        ∃ t, r.2.1 = v ++ t := by
  intro fuel
  induction fuel with
  | zero => intro g id st v l _ _ h; exact absurd h (Nat.not_lt_zero _)
  | succ fuel ih =>
    intro g id st v l hg hid hcu
    obtain ⟨nd', st', hstep, hp', hl'⟩ := hf (g.data id) st ((hg id hid).2.2)
    have hc1 : ClosedP P (g.setNode id nd') := ClosedP_setNode hg hl' hp'
    have hle0 : GraphLE g (g.setNode id nd') := GraphLE.setNode hl'
    have hb1 : CU (g.setNode id nd') (if id ∈ v then v else v ++ [id]) ≤ fuel := by
      rw [CU_nodes_eq (rfl : (g.setNode id nd').nodes = g.nodes)]
      by_cases hmem : id ∈ v
      · rw [if_pos hmem]; exact Nat.lt_succ_iff.mp hcu
      · rw [if_neg hmem]
        exact (CU_ext_le g v [id]).trans (Nat.lt_succ_iff.mp hcu)
    have htg1 : ∀ p ∈ ((g.setNode id nd').data id).prev, p.2 ∈ (g.setNode id nd').nodes := by
      rw [Graph.setNode_data_self, Graph.setNode_nodes, hl'.1]
      exact (hg id hid).1
    obtain ⟨r2, hr2, hc2, hle2, t1, ht1⟩ :=
      propFold_total fuel (fun g2 n v2 l2 => propGo f fuel g2 n st' v2 l2)
        (fun g2 n v2 l2 hcg hnn hlt => ih g2 n st' v2 l2 hcg hnn hlt)
        ((g.setNode id nd').data id).prev (g.setNode id nd')
        (if id ∈ v then v else v ++ [id]) (l ++ [id]) hc1 htg1 hb1
    obtain ⟨g2, v2, l2⟩ := r2
    simp only at hc2 hle2 ht1
    have hid2 : id ∈ g2.nodes := by rw [hle2.1, Graph.setNode_nodes]; exact hid
    have htg2 : ∀ p ∈ (g2.data id).next, p.2 ∈ g2.nodes := (hc2 id hid2).2.1
    have hb2 : CU g2 v2 ≤ fuel := by
      have : g2.nodes = (g.setNode id nd').nodes := hle2.1
      rw [CU_nodes_eq this, ht1]
      exact (CU_ext_le _ _ _).trans hb1
    obtain ⟨r3, hr3, hc3, hle3, t2, ht2⟩ :=
      propFold_total fuel (fun g3 n v3 l3 => propGo f fuel g3 n st' v3 l3)
        (fun g3 n v3 l3 hcg hnn hlt => ih g3 n st' v3 l3 hcg hnn hlt)
        (g2.data id).next g2 v2 l2 hc2 htg2 hb2
    refine ⟨r3, ?_, hc3, GraphLE_trans (GraphLE_trans hle0 hle2) hle3, ?_⟩
    · rw [propGo_succ]
      unfold propBody
      rw [hstep]
      simp only
      rw [hr2]
      exact hr3
    · by_cases hmem : id ∈ v
      · rw [if_pos hmem] at ht1
        exact ⟨t1 ++ t2, by rw [ht2, ht1]; simp⟩
      · rw [if_neg hmem] at ht1
        exact ⟨[id] ++ t1 ++ t2, by rw [ht2, ht1]; simp⟩

/-! ### Lemmas on the router -/

theorem noRouteUnchanged_of_isSome (g : Graph) (e : Option (Graph × Option ℕ))
    (he : ∀ r, e = some r → r.2.isSome) : NoRouteUnchanged g e := by
  unfold NoRouteUnchanged
  cases e with
  | none => trivial
  | some r =>
    obtain ⟨gg, id⟩ := r
    cases id with
    | none => exact absurd (he (gg, none) rfl) (by simp)
    | some i => trivial

theorem routerTail_isSome (g : Graph) (fr_id : ℕ) (fr_ep : String) (to_id : ℕ) (to_ep : String)
    (width : ℚ) (uw : Bool) (pref : String) (sp : Option ℚ) (pathmt : String)
    (fr toP : ℚ × ℚ) (p : List (ℚ × ℚ)) (lxr lp : ℤ) (s : WaveSt) (k : ℤ) :
    ∀ r, routerTail g fr_id fr_ep to_id to_ep width uw pref sp pathmt fr toP p lxr lp s k =
      some r → r.2.isSome := by
  intro r hr
  unfold routerTail at hr
  simp only [bind] at hr
  cases h1 : routerWs g fr_id to_id fr_ep to_ep width uw
      (routerBack fr toP p lxr lp s k pref sp).length with
  | none => rw [h1] at hr; cases hr
  | some ws =>
    rw [h1] at hr
    simp only [Option.bind] at hr
    cases h2 : pathFlex pathmt with
    | none => rw [h2] at hr; cases hr
    | some flex =>
      rw [h2] at hr
      simp only [Option.bind, pure, Option.some.injEq] at hr
      subst hr; rfl

/-! ### C2 -/

/-- C2: if the wave-propagation frontier empties before any target lattice
point is reached, `router` takes the `return False` (`NoPathFound`) exit, and
the heap it threads back is exactly the input heap: no node's `prev`/`next`
entry was added or changed and no routed node exists.  (The statement is
unconditional: every `return False` outcome of `router` returns the untouched
input heap `g`.) -/
theorem c2_router_no_path_graph_unchanged (fuel : ℕ) (g : Graph) (fr_id : ℕ) (fr_ep : String)
    (to_id : ℕ) (to_ep : String) (width bmul grid_s : ℚ) (xrArg yrArg : Option (List ℚ))
    (uw : Bool) (pref : String) (sp : Option ℚ) (pathmt : String)
    (insideFn : List (ℚ × ℚ) → List Bool) :
    NoRouteUnchanged g (router fuel g fr_id fr_ep to_id to_ep width bmul grid_s xrArg yrArg
      uw pref sp pathmt insideFn) := by
  unfold router
  simp only [bind]
  cases h1 : alGet? ((g.data fr_id).endpoints) fr_ep with
  | none => exact trivial
  | some fr =>
  simp only [Option.bind]
  cases h2 : alGet? ((g.data to_id).endpoints) to_ep with
  | none => exact trivial
  | some toP =>
  simp only [Option.bind]
  cases h3 : resolveAxis xrArg (minQ fr.1 toP.1 - bmul * grid_s) (maxQ fr.1 toP.1 + bmul * grid_s)
      (pyInt ((maxQ fr.1 toP.1 + bmul * grid_s - (minQ fr.1 toP.1 - bmul * grid_s)) / grid_s) + 1) with
  | none => exact trivial
  | some xr =>
  simp only [Option.bind]
  cases h4 : resolveAxis yrArg (maxQ fr.2 toP.2 + bmul * grid_s) (minQ fr.2 toP.2 - bmul * grid_s)
      (pyInt ((maxQ fr.2 toP.2 + bmul * grid_s - (minQ fr.2 toP.2 - bmul * grid_s)) / grid_s) + 1) with
  | none => exact trivial
  | some yr =>
  simp only [Option.bind]
  cases h5 : minFree (distsSq (gridPoints xr yr) fr) (insideFn (gridPoints xr yr)) with
  | none => exact trivial
  | some m1 =>
  simp only [Option.bind]
  cases h6 : minFree (distsSq (gridPoints xr yr) toP) (insideFn (gridPoints xr yr)) with
  | none => exact trivial
  | some m2 =>
  simp only [Option.bind]
  cases h7 : waveLoop (xr.length : ℤ) ((gridPoints xr yr).length : ℤ) (insideFn (gridPoints xr yr))
      (seedIdx (distsSq (gridPoints xr yr) toP) m2) pref fuel
      (seedIdx (distsSq (gridPoints xr yr) fr) m1)
      ⟨List.replicate (gridPoints xr yr).length 0, [], false, 0⟩ 0 with
  | none => exact trivial
  | some sk =>
  simp only [Option.bind]
  obtain ⟨s, k⟩ := sk
  by_cases hpf : s.path_found = false
  · rw [if_pos hpf]
    exact rfl
  · rw [if_neg hpf]
    exact noRouteUnchanged_of_isSome g _ (routerTail_isSome g fr_id fr_ep to_id to_ep width uw
      pref sp pathmt fr toP (gridPoints xr yr) (xr.length : ℤ) ((gridPoints xr yr).length : ℤ) s k)

/-! ### C1 -/

unseal Rat.mul Rat.add Rat.inv Rat.sub in
/-- C1 (code bug): the claim says a candidate neighbour that wraps across a
row boundary is always detected and skipped — never labelled and never added
to the next frontier.  On the 3-column lattice `xr = [0,1,2]`, `yr = [0,1]`
(`lxr = 3`, `lp = 6`, no obstacles, seed `start_i = [2]`, targets
`end_i = [4]`), expanding `i = 2` (last column of row 0) yields the candidate
`nb = 3 = i + 1` (first column of row 1, as the `%`-computation in the third
conjunct shows) — yet the wave labels it with step 1 and appends it to the
next frontier, because the skip test only catches column-0/column-1 pairs.
The full loop then terminates with a route, having expanded the wrapped cell.
(The same arguments are what `router` passes for the `gC1` ports `(2,0)` and
`(1,1)`, as the seed conjuncts show.) -/
theorem c1_wave_labels_wrapping_neighbour :
    lookaround 2 3 "y" = [-1, 5, 1, 3] ∧
    ((2 : ℤ) % 3 = 2 ∧ (3 : ℤ) % 3 = 0) ∧
    minFree (distsSq (gridPoints [0, 1, 2] [0, 1]) (2, 0)) (List.replicate 6 false) = some 0 ∧
    seedIdx (distsSq (gridPoints [0, 1, 2] [0, 1]) (2, 0)) 0 = [2] ∧
    minFree (distsSq (gridPoints [0, 1, 2] [0, 1]) (1, 1)) (List.replicate 6 false) = some 0 ∧
    seedIdx (distsSq (gridPoints [0, 1, 2] [0, 1]) (1, 1)) 0 = [4] ∧
    (frontLoop 3 6 (List.replicate 6 false) [4] 1 "y" [2]
        ⟨List.replicate 6 0, [], false, 0⟩).p_g = [0, 1, 0, 1, 0, 1] ∧
    (frontLoop 3 6 (List.replicate 6 false) [4] 1 "y" [2]
        ⟨List.replicate 6 0, [], false, 0⟩).next_start = [5, 1, 3] ∧
    (waveLoop 3 6 (List.replicate 6 false) [4] "y" 5 [2]
        ⟨List.replicate 6 0, [], false, 0⟩ 0).map
        (fun r => (r.1.p_g, r.1.path_found, r.1.final_index, r.2)) =
      some ([2, 1, 2, 1, 2, 1], true, 4, 2) ∧
    (router 10 gC1 0 "P" 1 "Q" 1 0 1 (some [0, 1, 2]) (some [0, 1]) true "y" none "poly"
        allFreeFn).map (fun r => r.2) = some (some 2) := by
  decide

/-! ### C3 -/

/-- C3 (amended): `connect` raises no `MissingDirection` error — no such
check exists.  (a) If either node lacks truthy direction data — its
`endpoint_directions` is `None` or the falsy empty dict, on the `self` side or
on the `to` side — a `rotate = True` call behaves exactly like a
`rotate = False` call: the auto-orientation is silently skipped.  (b) When
both nodes carry (truthy) direction data and the two ports have directions
`dto` and `dse`, `connect` first rotates `self` by `(dto − dse − π) mod 2π`
(Python float `%`, with the double value of `np.pi`), then translates and
links. -/
theorem c3_connect_orientation (T : Trig) (fuel : ℕ) (g : Graph) (selfId : ℕ)
    (ep_self : String) (toId : ℕ) (ep_to : String) (offset : ℚ × ℚ) (obj_link : Bool) :
    (((g.data selfId).endpoint_directions = none ∨
      (g.data selfId).endpoint_directions = some [] ∨
      (g.data toId).endpoint_directions = none ∨
      (g.data toId).endpoint_directions = some []) →
      connect T fuel g selfId ep_self toId ep_to offset obj_link true =
        connect T fuel g selfId ep_self toId ep_to offset obj_link false) ∧
    (∀ d1 t1 d2 t2 dto dse,
      (g.data selfId).endpoint_directions = some (d1 :: t1) →
      (g.data toId).endpoint_directions = some (d2 :: t2) →
      alGet? (d2 :: t2) ep_to = some dto →
      alGet? (d1 :: t1) ep_self = some dse →
      connect T fuel g selfId ep_self toId ep_to offset obj_link true =
        (rotate T fuel g selfId (pyMod (dto - dse - np_pi) (2 * np_pi))).bind
          (fun r => connectRest fuel r.1 selfId ep_self toId ep_to offset obj_link)) := by
  constructor
  · intro hfalsy
    unfold connect
    rcases hfalsy with h | h | h | h
    · rw [h]
    · rw [h]
    · rw [h]
      cases hs : (g.data selfId).endpoint_directions with
      | none => rfl
      | some l =>
        cases l with
        | nil => rfl
        | cons d t => rfl
    · rw [h]
      cases hs : (g.data selfId).endpoint_directions with
      | none => rfl
      | some l =>
        cases l with
        | nil => rfl
        | cons d t => rfl
  · intro d1 t1 d2 t2 dto dse h1 h2 h3 h4
    unfold connect
    rw [h1, h2]
    simp only [bind, Option.getD, Option.bind]
    rw [h3]
    simp only [Option.bind]
    rw [h4]
    simp only [Option.bind]
    cases hrot : rotate T fuel g selfId (pyMod (dto - dse - np_pi) (2 * np_pi)) with
    | none => simp [Option.bind]
    | some r => simp [Option.bind, pure]

unseal Rat.mul Rat.add Rat.inv Rat.sub in
/-- C3 (counterexample): in `gC3` object 0 has no direction data while object
1 does; the claim says `connect(..., rotate=True)` must fail with
`MissingDirection`, but the call succeeds and merely translates: port `a`
lands on `b`'s position `(3, 4)` and the only geometry operation recorded is
a translation (no rotation, no error). -/
theorem c3_counterexample :
    (connect trig0 5 gC3 0 "a" 1 "b" (0, 0) false true).isSome = true ∧
    (connect trig0 5 gC3 0 "a" 1 "b" (0, 0) false true).map
        (fun g => ((g.data 0).endpoints, (g.data 0).struct)) =
      some ([("a", (3, 4))], [GeomOp.transl (3, 4)]) := by
  decide

/-- Check of `c3_connect_orientation` at concrete inputs: part (a) on `gC3`
first with the direction-free object 0 as `self`, then with it as `to` (so
both sides of the truthiness check are exercised), part (b) on `gC3b`
(directions 5 and 7). -/
theorem c3_witness :
    ((gC3.data 0).endpoint_directions = none ∧
      connect trig0 5 gC3 0 "a" 1 "b" (0, 0) false true =
        connect trig0 5 gC3 0 "a" 1 "b" (0, 0) false false) ∧
    ((gC3.data 0).endpoint_directions = none ∧
      connect trig0 5 gC3 1 "b" 0 "a" (0, 0) false true =
        connect trig0 5 gC3 1 "b" 0 "a" (0, 0) false false) ∧
    ((gC3b.data 0).endpoint_directions = some [("a", 5)] ∧
      (gC3b.data 1).endpoint_directions = some [("b", 7)] ∧
      connect trig0 5 gC3b 0 "a" 1 "b" (0, 0) false true =
        (rotate trig0 5 gC3b 0 (pyMod (7 - 5 - np_pi) (2 * np_pi))).bind
          (fun r => connectRest 5 r.1 0 "a" 1 "b" (0, 0) false)) :=
  ⟨⟨rfl, (c3_connect_orientation trig0 5 gC3 0 "a" 1 "b" (0, 0) false).1 (Or.inl rfl)⟩,
   ⟨rfl, (c3_connect_orientation trig0 5 gC3 1 "b" 0 "a" (0, 0) false).1
      (Or.inr (Or.inr (Or.inl rfl)))⟩,
   ⟨rfl, rfl,
    (c3_connect_orientation trig0 5 gC3b 0 "a" 1 "b" (0, 0) false).2
      ("a", 5) [] ("b", 7) [] 7 5 rfl rfl (by decide) (by decide)⟩⟩

/-! ### C4 -/

theorem npMin_eq_none (l : List ℚ) : npMin l = none ↔ l = [] := by
  cases l with
  | nil => simp [npMin]
  | cons x t =>
    simp only [npMin]
    cases npMin t <;> simp

theorem npMin_le (l : List ℚ) (m : ℚ) (h : npMin l = some m) : ∀ x ∈ l, m ≤ x := by
  induction l generalizing m with
  | nil => cases h
  | cons x t ih =>
    intro y hy
    simp only [npMin] at h
    cases ht : npMin t with
    | none =>
      rw [ht, Option.some.injEq] at h
      subst h
      have ht' : t = [] := (npMin_eq_none t).mp ht
      subst ht'
      rw [List.mem_singleton] at hy
      subst hy
      exact le_refl _
    | some m' =>
      rw [ht, Option.some.injEq] at h
      subst h
      rcases List.mem_cons.mp hy with hyx | hyt
      · rw [hyx]
        by_cases hxm : x ≤ m'
        · rw [if_pos hxm]
        · rw [if_neg hxm]
          exact le_of_not_le hxm
      · have hm' := ih m' ht y hyt
        by_cases hxm : x ≤ m'
        · rw [if_pos hxm]; exact hxm.trans hm'
        · rw [if_neg hxm]; exact hm'

theorem npMin_mem (l : List ℚ) (m : ℚ) (h : npMin l = some m) : m ∈ l := by
  induction l generalizing m with
  | nil => cases h
  | cons x t ih =>
    simp only [npMin] at h
    cases ht : npMin t with
    | none =>
      rw [ht, Option.some.injEq] at h
      subst h
      exact List.mem_cons_self _ _
    | some m' =>
      rw [ht, Option.some.injEq] at h
      subst h
      by_cases hxm : x ≤ m'
      · rw [if_pos hxm]; exact List.mem_cons_self _ _
      · rw [if_neg hxm]; exact List.mem_cons_of_mem _ (ih m' ht)

theorem seedIdx_mem (d : List ℚ) (m : ℚ) (j : ℤ) :
    j ∈ seedIdx d m ↔ ∃ i : ℕ, j = (i : ℤ) ∧ i < d.length ∧ d.getD i 0 = m := by
  unfold seedIdx
  constructor
  · intro hj
    rcases List.mem_map.mp hj with ⟨i, hi, hij⟩
    rcases List.mem_filter.mp hi with ⟨hir, him⟩
    exact ⟨i, hij.symm, List.mem_range.mp hir, of_decide_eq_true him⟩
  · rintro ⟨i, rfl, hi, him⟩
    exact List.mem_map.mpr
      ⟨i, List.mem_filter.mpr ⟨List.mem_range.mpr hi, decide_eq_true him⟩, rfl⟩

/-- C4 (amended): the seed set `start_i = argwhere(p_d == min(p_d[~inside]))`
consists of all lattice points — obstacle or not — whose squared distance
equals the minimum over the non-obstacle points; that minimum is genuinely
the minimum over non-obstacle points and is attained at one.  (The original
claim that no obstacle point is ever a seed fails: see the counterexample.)
The same functions compute the target set from `p_d_to`. -/
theorem c4_seed_set (d : List ℚ) (inside : List Bool) :
    match minFree d inside with
    | none => True
    | some m =>
        (∀ j : ℤ, j ∈ seedIdx d m ↔ ∃ i : ℕ, j = (i : ℤ) ∧ i < d.length ∧ d.getD i 0 = m) ∧
        (∀ p ∈ d.zip inside, p.2 = false → m ≤ p.1) ∧
        (∃ p ∈ d.zip inside, p.2 = false ∧ p.1 = m) := by
  cases hm : minFree d inside with
  | none => trivial
  | some m =>
    refine ⟨fun j => seedIdx_mem d m j, ?_, ?_⟩
    · intro p hp hfree
      unfold minFree at hm
      refine npMin_le _ m hm p.1 ?_
      exact List.mem_map_of_mem Prod.fst
        (List.mem_filter.mpr ⟨hp, by simp [hfree]⟩)
    · unfold minFree at hm
      have hmem := npMin_mem _ m hm
      simp only [List.mem_map, List.mem_filter] at hmem
      obtain ⟨p, ⟨hp, hfree⟩, hval⟩ := hmem
      exact ⟨p, hp, by simpa using hfree, hval⟩

unseal Rat.mul Rat.add Rat.inv Rat.sub in
/-- C4 (counterexample): on the lattice `xr = [0, 1]`, `yr = [0]` with the
"from" port at `(1/2, 0)`, both lattice points are at squared distance `1/4`
from the port and point 1 is inside an obstacle.  The minimum over
non-obstacle points is `1/4` (attained at the free point 0), but the seed
set the router computes is `[0, 1]`: the obstacle point 1 is a seed,
contradicting "no obstacle point is ever in the seed set". -/
theorem c4_counterexample :
    minFree (distsSq (gridPoints [0, 1] [0]) (1/2, 0)) [false, true] = some (1/4) ∧
    seedIdx (distsSq (gridPoints [0, 1] [0]) (1/2, 0)) (1/4) = [0, 1] ∧
    [false, true].getD 1 false = true := by
  decide

/-! ### Local transform steps: totality and link preservation -/

theorem alMap_all_mem {κ ν : Type} [DecidableEq κ] (f : ν → ν) (l : List (κ × ν))
    (keys : List κ) :
    (alMap f l).all (fun p => decide (p.1 ∈ keys)) = l.all (fun p => decide (p.1 ∈ keys)) := by
  induction l with
  | nil => rfl
  | cons p t ih => simp_all [alMap]

theorem rotBase_linkEq (T : Trig) (rad : ℚ) (nd : GDSNode) : LinkEq nd (rotBase T rad nd) := by
  refine ⟨rfl, rfl, rfl, ?_, rfl⟩
  show (alMap (VecRot T rad) nd.endpoints).map Prod.fst = nd.endpoints.map Prod.fst
  exact alMap_keys (VecRot T rad) nd.endpoints

theorem movBase_linkEq (delta : ℚ × ℚ) (nd : GDSNode) : LinkEq nd (movBase delta nd) := by
  refine ⟨rfl, rfl, rfl, ?_, rfl⟩
  show (alMap (fun v => (v.1 + delta.1, v.2 + delta.2)) nd.endpoints).map Prod.fst
    = nd.endpoints.map Prod.fst
  exact alMap_keys _ nd.endpoints

theorem mirrorEndpoints_keys (p2 : ℚ × ℚ) (l : List (String × ℚ × ℚ)) (p1 : ℚ × ℚ) :
    (mirrorEndpoints p2 l p1).1.map Prod.fst = l.map Prod.fst := by
  induction l generalizing p1 with
  | nil => rfl
  | cons p t ih =>
    obtain ⟨k, v⟩ := p
    show k :: (mirrorEndpoints p2 t (mirrorPerturb p1 p2)).1.map Prod.fst
      = k :: t.map Prod.fst
    rw [ih]

theorem mirBase_linkEq (nd : GDSNode) (p1 p2 : ℚ × ℚ) : LinkEq nd (mirBase nd p1 p2) := by
  refine ⟨rfl, rfl, rfl, ?_, rfl⟩
  show (mirrorEndpoints p2 nd.endpoints p1).1.map Prod.fst = nd.endpoints.map Prod.fst
  exact mirrorEndpoints_keys p2 nd.endpoints p1

theorem rotateLocal_linkEq (T : Trig) (rad : ℚ) (nd nd' : GDSNode)
    (h : rotateLocal T rad nd = some nd') : LinkEq nd nd' := by
  unfold rotateLocal at h
  cases hd : nd.endpoint_directions with
  | none =>
    rw [hd] at h
    simp only [Option.some.injEq] at h
    subst h
    exact rotBase_linkEq T rad nd
  | some ds =>
    cases ds with
    | nil =>
      rw [hd] at h
      simp only [Option.some.injEq] at h
      subst h
      exact rotBase_linkEq T rad nd
    | cons d dt =>
      rw [hd] at h
      simp only [Option.map_eq_some'] at h
      obtain ⟨ds', _, rfl⟩ := h
      refine ⟨rfl, rfl, rfl, ?_, rfl⟩
      exact alMap_keys _ _

theorem rotStep_preserves (T : Trig) (rad : ℚ) : PreservesLinks (rotStep T rad) := by
  intro nd st nd' st' h
  unfold rotStep at h
  rw [Option.map_eq_some'] at h
  obtain ⟨nd2, h1, h2⟩ := h
  cases h2
  exact rotateLocal_linkEq T rad nd nd' h1

theorem movStep_preserves (delta : ℚ × ℚ) : PreservesLinks (movStep delta) := by
  intro nd st nd' st' h
  unfold movStep translateLocal at h
  simp only [Option.map_some', Option.some.injEq] at h
  cases h
  exact movBase_linkEq delta nd

theorem mirrorLocal_preserves : PreservesLinks mirrorLocal := by
  intro nd st nd' st' h
  unfold mirrorLocal at h
  simp only [Option.some.injEq, Prod.mk.injEq] at h
  obtain ⟨h1, -⟩ := h
  subst h1
  exact mirBase_linkEq nd st.1 st.2

theorem movStep_total (delta : ℚ × ℚ) : StepTotal (fun _ => True) (movStep delta) :=
  fun nd _ _ => ⟨movBase delta nd, (), rfl, trivial, movBase_linkEq delta nd⟩

theorem mirrorLocal_total : StepTotal (fun _ => True) mirrorLocal :=
  fun nd st _ => ⟨mirBase nd st.1 st.2, _, rfl, trivial, mirBase_linkEq nd st.1 st.2⟩

theorem rotDirsAll_total (rad : ℚ) (keys : List String) (ds : List (String × ℚ))
    (h : ∀ k ∈ keys, k ∈ ds.map Prod.fst) :
    ∃ ds', rotDirsAll rad keys ds = some ds' ∧ ds'.map Prod.fst = ds.map Prod.fst := by
  induction keys generalizing ds with
  | nil => exact ⟨ds, rfl, rfl⟩
  | cons k t ih =>
    have hk := h k (List.mem_cons_self _ _)
    have hs := alUpd_isSome_of_mem ds k (fun x => x + rad) hk
    rcases Option.isSome_iff_exists.mp hs with ⟨ds1, hds1⟩
    have hkeys := alUpd_keys ds k _ ds1 hds1
    obtain ⟨ds', hds', hkeys'⟩ := ih ds1 (fun k' hk' => by
      rw [hkeys]; exact h k' (List.mem_cons_of_mem _ hk'))
    refine ⟨ds', ?_, hkeys'.trans hkeys⟩
    simp only [rotDirsAll, hds1]
    exact hds'

theorem rotBase_dirsOKb (T : Trig) (rad : ℚ) (nd : GDSNode) (h : dirsOKb nd = true) :
    dirsOKb (rotBase T rad nd) = true := by
  unfold dirsOKb at h ⊢
  rw [show (rotBase T rad nd).endpoint_directions = nd.endpoint_directions from rfl]
  cases hd : nd.endpoint_directions with
  | none => rfl
  | some ds =>
    rw [hd] at h
    cases ds with
    | nil => rfl
    | cons d dt =>
      show (rotBase T rad nd).endpoints.all
        (fun p => decide (p.1 ∈ (d :: dt).map Prod.fst)) = true
      rw [show (rotBase T rad nd).endpoints = alMap (VecRot T rad) nd.endpoints from rfl,
        alMap_all_mem]
      exact h

theorem rotStep_total (T : Trig) (rad : ℚ) :
    StepTotal (fun nd => dirsOKb nd = true) (rotStep T rad) := by
  intro nd st hP
  cases hd : nd.endpoint_directions with
  | none =>
    refine ⟨rotBase T rad nd, (), ?_, rotBase_dirsOKb T rad nd hP, rotBase_linkEq T rad nd⟩
    unfold rotStep rotateLocal
    rw [hd]
    rfl
  | some ds =>
    cases ds with
    | nil =>
      refine ⟨rotBase T rad nd, (), ?_, rotBase_dirsOKb T rad nd hP, rotBase_linkEq T rad nd⟩
      unfold rotStep rotateLocal
      rw [hd]
      rfl
    | cons d dt =>
      have hall : ∀ k ∈ nd.endpoints.map Prod.fst, k ∈ ((d :: dt).map Prod.fst) := by
        unfold dirsOKb at hP
        rw [hd] at hP
        rw [List.all_eq_true] at hP
        intro k hk
        rcases List.mem_map.mp hk with ⟨p, hp, rfl⟩
        exact of_decide_eq_true (hP p hp)
      obtain ⟨ds', hds', hkeys⟩ := rotDirsAll_total rad (nd.endpoints.map Prod.fst) (d :: dt) hall
      refine ⟨{ rotBase T rad nd with endpoint_directions := some ds' }, (), ?_, ?_, ?_⟩
      · unfold rotStep rotateLocal
        rw [hd]
        show ((rotDirsAll rad (nd.endpoints.map Prod.fst) (d :: dt)).map
          (fun ds' => ({ rotBase T rad nd with
            endpoint_directions := some ds' } : GDSNode))).map (fun nd' => (nd', ())) = _
        rw [hds']
        rfl
      · show dirsOKb { rotBase T rad nd with endpoint_directions := some ds' } = true
        unfold dirsOKb
        rw [show ({ rotBase T rad nd with
          endpoint_directions := some ds' } : GDSNode).endpoint_directions = some ds' from rfl]
        cases hnil : ds' with
        | nil => rfl
        | cons e et =>
          show ({ rotBase T rad nd with
            endpoint_directions := some (e :: et) } : GDSNode).endpoints.all
            (fun p => decide (p.1 ∈ (e :: et).map Prod.fst)) = true
          rw [show ({ rotBase T rad nd with
            endpoint_directions := some (e :: et) } : GDSNode).endpoints
            = alMap (VecRot T rad) nd.endpoints from rfl, alMap_all_mem]
          rw [show (e :: et).map Prod.fst = ds'.map Prod.fst from by rw [hnil]]
          rw [hkeys]
          unfold dirsOKb at hP
          rw [hd] at hP
          exact hP
      · refine ⟨rfl, rfl, rfl, ?_, rfl⟩
        exact alMap_keys _ _

/-! ### C5 -/

theorem CU_nil_le (g : Graph) : CU g [] ≤ g.nodes.length :=
  List.length_filter_le _ _

/-- C5: on every finite closed heap (all link targets exist, direction data
consistent), a top-level `rotate` call with fuel `|nodes| + 1` terminates —
the threaded `signal_from` list, seeded with `self`, stops the recursion —
and the ghost log of nodes whose local rotation ran has no duplicates: no
node is rotated or recursed into twice, even on cyclic graphs. -/
theorem c5_rotate_terminates (T : Trig) (rad : ℚ) (g : Graph) (selfId : ℕ)
    (hg : ClosedP (fun nd => dirsOKb nd = true) g) (hid : selfId ∈ g.nodes) :
    ∃ r, rotate T (g.nodes.length + 1) g selfId rad = some r ∧ r.2.2.Nodup := by
  obtain ⟨r, hr, -, -, -⟩ := propGo_total (rotStep T rad) (rotStep_total T rad)
    (g.nodes.length + 1) g selfId () [] [] hg hid (Nat.lt_succ_of_le (CU_nil_le g))
  obtain ⟨hnd, -, -⟩ := propGo_log (rotStep T rad) (g.nodes.length + 1) g selfId () [] [] r
    (by simp) (by simp) List.nodup_nil hr
  exact ⟨r, hr, hnd⟩

/-- Check of `c5_rotate_terminates` on the concrete cyclic two-node heap
`gC5` (`A ↔ B`). -/
theorem c5_witness :
    (ClosedP (fun nd => dirsOKb nd = true) gC5 ∧ 0 ∈ gC5.nodes) ∧
    ∃ r, rotate trig0 (gC5.nodes.length + 1) gC5 0 1 = some r ∧ r.2.2.Nodup :=
  ⟨⟨by unfold ClosedP; decide, by decide⟩,
   c5_rotate_terminates trig0 1 gC5 0 (by unfold ClosedP; decide) (by decide)⟩

/-! ### C9 -/

/-- C9: for every node of the heap — in particular every node of the reached
connected component — a `rotate`, `translate` or `mirror` call changes
neither the `prev` nor the `next` link dict (keys and referenced objects),
nor the set of port names, nor the `portDims` dict (nor the children):
transforms only move geometry, port positions and (for rotate) directions. -/
theorem c9_transforms_only_move_geometry (T : Trig) (rad : ℚ) (delta p1 p2 : ℚ × ℚ)
    (fuel : ℕ) (g : Graph) (selfId : ℕ) :
    TransformKeepsLinks g (rotate T fuel g selfId rad) ∧
    TransformKeepsLinks g (translate fuel g selfId delta) ∧
    TransformKeepsLinks g (mirror fuel g selfId p1 p2) := by
  refine ⟨?_, ?_, ?_⟩
  · unfold TransformKeepsLinks rotate
    cases h : propGo (rotStep T rad) fuel g selfId () [] [] with
    | none => trivial
    | some r =>
      exact fun n =>
        (propGo_pres (rotStep T rad) (rotStep_preserves T rad) fuel g selfId () [] [] r h).2 n
  · unfold TransformKeepsLinks translate
    cases h : propGo (movStep delta) fuel g selfId () [] [] with
    | none => trivial
    | some r =>
      exact fun n =>
        (propGo_pres (movStep delta) (movStep_preserves delta) fuel g selfId () [] [] r h).2 n
  · unfold TransformKeepsLinks mirror
    cases h : propGo mirrorLocal fuel g selfId (p1, p2) [] [] with
    | none => trivial
    | some r =>
      exact fun n =>
        (propGo_pres mirrorLocal mirrorLocal_preserves fuel g selfId (p1, p2) [] [] r h).2 n

/-! ### C8 -/

theorem alGet?_some_mem {κ ν : Type} [DecidableEq κ] (l : List (κ × ν)) (k : κ) (v : ν)
    (h : alGet? l k = some v) : k ∈ l.map Prod.fst := by
  induction l with
  | nil => cases h
  | cons p t ih =>
    obtain ⟨a, b⟩ := p
    by_cases hak : a = k
    · simp [hak]
    · rw [alGet?_cons, if_neg hak] at h
      exact List.mem_cons_of_mem _ (ih h)

theorem DiscSafe_refl (g : Graph) : DiscSafe g g :=
  ⟨fun _ => rfl, fun _ _ _ => ⟨rfl, rfl⟩⟩

theorem DiscSafe_trans {g1 g2 g3 : Graph} (h1 : DiscSafe g1 g2) (h2 : DiscSafe g2 g3) :
    DiscSafe g1 g3 := by
  refine ⟨fun n => (h2.1 n).trans (h1.1 n), fun B k hk => ?_⟩
  have hk2 : ∀ e ∈ ((g2.data B).endpoints).map Prod.fst, k ≠ LinkKey.str e := by
    rw [h1.1 B]; exact hk
  exact ⟨((h2.2 B k hk2).1).trans ((h1.2 B k hk).1),
    ((h2.2 B k hk2).2).trans ((h1.2 B k hk).2)⟩

theorem OnlyDeletes_refl (g : Graph) : OnlyDeletes g g :=
  fun _ _ => ⟨Or.inl rfl, Or.inl rfl⟩

theorem OnlyDeletes_trans {g1 g2 g3 : Graph} (h1 : OnlyDeletes g1 g2)
    (h2 : OnlyDeletes g2 g3) : OnlyDeletes g1 g3 := by
  intro B k
  constructor
  · rcases (h2 B k).1 with h | h
    · rw [h]; exact (h1 B k).1
    · exact Or.inr h
  · rcases (h2 B k).2 with h | h
    · rw [h]; exact (h1 B k).2
    · exact Or.inr h

/-- One `del tgt.prev[ne]` / `del tgt.next[ne]`-style node update. -/
theorem DiscSafe.setNode_delPrev {g : Graph} {tgt : ℕ} {ne : String}
    (hne : ne ∈ ((g.data tgt).endpoints).map Prod.fst) :
    DiscSafe g (g.setNode tgt { g.data tgt with
      prev := alDel ((g.data tgt).prev) (LinkKey.str ne) }) := by
  constructor
  · intro n
    by_cases hn : n = tgt
    · subst hn; rw [Graph.setNode_data_self]
    · rw [Graph.setNode_data_ne _ _ _ _ hn]
  · intro B k hk
    by_cases hB : B = tgt
    · subst hB
      rw [Graph.setNode_data_self]
      constructor
      · show alGet? (alDel ((g.data B).prev) (LinkKey.str ne)) k = _
        rw [alGet?_alDel]
        rw [if_neg (hk ne hne)]
      · rfl
    · rw [Graph.setNode_data_ne _ _ _ _ hB]
      exact ⟨rfl, rfl⟩

theorem DiscSafe.setNode_delNext {g : Graph} {tgt : ℕ} {ne : String}
    (hne : ne ∈ ((g.data tgt).endpoints).map Prod.fst) :
    DiscSafe g (g.setNode tgt { g.data tgt with
      next := alDel ((g.data tgt).next) (LinkKey.str ne) }) := by
  constructor
  · intro n
    by_cases hn : n = tgt
    · subst hn; rw [Graph.setNode_data_self]
    · rw [Graph.setNode_data_ne _ _ _ _ hn]
  · intro B k hk
    by_cases hB : B = tgt
    · subst hB
      rw [Graph.setNode_data_self]
      constructor
      · rfl
      · show alGet? (alDel ((g.data B).next) (LinkKey.str ne)) k = _
        rw [alGet?_alDel]
        rw [if_neg (hk ne hne)]
    · rw [Graph.setNode_data_ne _ _ _ _ hB]
      exact ⟨rfl, rfl⟩

theorem delRevPrev_discSafe (selfId tgt : ℕ) (keys : List String) :
    ∀ g, (∀ e ∈ keys, e ∈ ((g.data tgt).endpoints).map Prod.fst) →
      DiscSafe g (delRevPrev selfId tgt g keys) := by
  induction keys with
  | nil => intro g _; exact DiscSafe_refl g
  | cons ne rest ih =>
    intro g hkeys
    show DiscSafe g (delRevPrev selfId tgt _ rest)
    by_cases hc : alGet? ((g.data tgt).prev) (LinkKey.str ne) = some selfId
    · rw [if_pos hc]
      have h1 := DiscSafe.setNode_delPrev
        (hkeys ne (List.mem_cons_self _ _))
      refine DiscSafe_trans h1 (ih _ ?_)
      intro e he
      rw [(h1.1 tgt)]
      exact hkeys e (List.mem_cons_of_mem _ he)
    · rw [if_neg hc]
      exact ih g (fun e he => hkeys e (List.mem_cons_of_mem _ he))

theorem delRevNext_discSafe (selfId tgt : ℕ) (keys : List String) :
    ∀ g, (∀ e ∈ keys, e ∈ ((g.data tgt).endpoints).map Prod.fst) →
      DiscSafe g (delRevNext selfId tgt g keys) := by
  induction keys with
  | nil => intro g _; exact DiscSafe_refl g
  | cons ne rest ih =>
    intro g hkeys
    show DiscSafe g (delRevNext selfId tgt _ rest)
    by_cases hc : alGet? ((g.data tgt).next) (LinkKey.str ne) = some selfId
    · rw [if_pos hc]
      have h1 := DiscSafe.setNode_delNext
        (hkeys ne (List.mem_cons_self _ _))
      refine DiscSafe_trans h1 (ih _ ?_)
      intro e he
      rw [(h1.1 tgt)]
      exact hkeys e (List.mem_cons_of_mem _ he)
    · rw [if_neg hc]
      exact ih g (fun e he => hkeys e (List.mem_cons_of_mem _ he))

theorem discStep_discSafe (g : Graph) (selfId : ℕ) (e : String)
    (he : e ∈ ((g.data selfId).endpoints).map Prod.fst) :
    DiscSafe g (discStep g selfId e) := by
  unfold discStep
  have hbranch1 : ∀ g0 : Graph, e ∈ ((g0.data selfId).endpoints).map Prod.fst →
      DiscSafe g0 (match alGet? ((g0.data selfId).next) (LinkKey.str e) with
        | some tgt =>
            (delRevPrev selfId tgt g0 (((g0.data tgt).endpoints).map Prod.fst)).setNode selfId
              { (delRevPrev selfId tgt g0 (((g0.data tgt).endpoints).map Prod.fst)).data selfId with
                next := alDel (((delRevPrev selfId tgt g0
                  (((g0.data tgt).endpoints).map Prod.fst)).data selfId).next) (LinkKey.str e) }
        | none => g0) := by
    intro g0 he0
    cases hn : alGet? ((g0.data selfId).next) (LinkKey.str e) with
    | none => exact DiscSafe_refl g0
    | some tgt =>
      have h1 := delRevPrev_discSafe selfId tgt (((g0.data tgt).endpoints).map Prod.fst) g0
        (fun _ hx => hx)
      refine DiscSafe_trans h1 ?_
      have he1 : e ∈ (((delRevPrev selfId tgt g0
          (((g0.data tgt).endpoints).map Prod.fst)).data selfId).endpoints).map Prod.fst := by
        rw [h1.1 selfId]; exact he0
      exact DiscSafe.setNode_delNext he1
  have hbranch2 : ∀ g1 : Graph, e ∈ ((g1.data selfId).endpoints).map Prod.fst →
      DiscSafe g1 (match alGet? ((g1.data selfId).prev) (LinkKey.str e) with
        | some tgt =>
            (delRevNext selfId tgt g1 (((g1.data tgt).endpoints).map Prod.fst)).setNode selfId
              { (delRevNext selfId tgt g1 (((g1.data tgt).endpoints).map Prod.fst)).data selfId with
                prev := alDel (((delRevNext selfId tgt g1
                  (((g1.data tgt).endpoints).map Prod.fst)).data selfId).prev) (LinkKey.str e) }
        | none => g1) := by
    intro g1 he1
    cases hn : alGet? ((g1.data selfId).prev) (LinkKey.str e) with
    | none => exact DiscSafe_refl g1
    | some tgt =>
      have h1 := delRevNext_discSafe selfId tgt (((g1.data tgt).endpoints).map Prod.fst) g1
        (fun _ hx => hx)
      refine DiscSafe_trans h1 ?_
      have he2 : e ∈ (((delRevNext selfId tgt g1
          (((g1.data tgt).endpoints).map Prod.fst)).data selfId).endpoints).map Prod.fst := by
        rw [h1.1 selfId]; exact he1
      have := DiscSafe.setNode_delPrev he2
      exact this
  have h1 := hbranch1 g he
  refine DiscSafe_trans h1 ?_
  refine hbranch2 _ ?_
  rw [h1.1 selfId]
  exact he

theorem discLoop_discSafe (selfId : ℕ) (keys : List String) :
    ∀ g, (∀ e ∈ keys, e ∈ ((g.data selfId).endpoints).map Prod.fst) →
      DiscSafe g (discLoop selfId g keys) := by
  induction keys with
  | nil => intro g _; exact DiscSafe_refl g
  | cons e rest ih =>
    intro g hkeys
    show DiscSafe g (discLoop selfId (discStep g selfId e) rest)
    have h1 := discStep_discSafe g selfId e (hkeys e (List.mem_cons_self _ _))
    refine DiscSafe_trans h1 (ih _ ?_)
    intro e' he'
    rw [h1.1 selfId]
    exact hkeys e' (List.mem_cons_of_mem _ he')

theorem disconnect_discSafe (g : Graph) (selfId : ℕ) :
    DiscSafe g (disconnect g selfId) :=
  discLoop_discSafe selfId _ g (fun _ hx => hx)

/-! ### C10 -/

/-- C10: `disconnect` only removes link entries reachable under string
endpoint names: for every object `B` and every link key `k` that is not one
of `B`'s own port names — in particular every object-identity key created by
`connect` with `obj_link=True`, and every synthetic string key such as the
`AUTOROUTE_*`/`COMPOUND_*` keys of `router` and `cluster` (which are not port
names) — the entry under `k` in `B`'s `prev` and `next` dicts is exactly the
same after any `disconnect` call as before it. -/
theorem c10_disconnect_keeps_foreign_keys (g : Graph) (selfId : ℕ) (B : ℕ) (k : LinkKey)
    (hk : ∀ e ∈ ((g.data B).endpoints).map Prod.fst, k ≠ LinkKey.str e) :
    alGet? (((disconnect g selfId).data B).prev) k = alGet? ((g.data B).prev) k ∧
    alGet? (((disconnect g selfId).data B).next) k = alGet? ((g.data B).next) k :=
  (disconnect_discSafe g selfId).2 B k hk

/-- Check of `c10_disconnect_keeps_foreign_keys` on `gC10`: disconnecting the
routed structure (object 1, ports `A`/`B`) keeps its `AUTOROUTE_A` and
`COMPOUND_0` predecessor entries and keeps object 0's object-keyed and
`AUTOROUTE_A` links (none of these keys is a port name). -/
theorem c10_witness :
    ((∀ e ∈ ((gC10.data 1).endpoints).map Prod.fst, LinkKey.str "AUTOROUTE_A" ≠ LinkKey.str e) ∧
     (∀ e ∈ ((gC10.data 0).endpoints).map Prod.fst, LinkKey.obj 1 ≠ LinkKey.str e)) ∧
    (alGet? (((disconnect gC10 1).data 1).prev) (LinkKey.str "AUTOROUTE_A") =
        alGet? ((gC10.data 1).prev) (LinkKey.str "AUTOROUTE_A") ∧
      alGet? (((disconnect gC10 1).data 1).next) (LinkKey.str "AUTOROUTE_A") =
        alGet? ((gC10.data 1).next) (LinkKey.str "AUTOROUTE_A")) ∧
    (alGet? (((disconnect gC10 1).data 0).prev) (LinkKey.obj 1) =
        alGet? ((gC10.data 0).prev) (LinkKey.obj 1) ∧
      alGet? (((disconnect gC10 1).data 0).next) (LinkKey.obj 1) =
        alGet? ((gC10.data 0).next) (LinkKey.obj 1)) :=
  ⟨⟨by decide, by decide⟩,
   c10_disconnect_keeps_foreign_keys gC10 1 1 (LinkKey.str "AUTOROUTE_A") (by decide),
   c10_disconnect_keeps_foreign_keys gC10 1 0 (LinkKey.obj 1) (by decide)⟩

/-! ### C6: single-node deletion lemmas -/

theorem delNextAt_next_ne (g : Graph) (s : ℕ) (e : String) (n : ℕ) (hns : n ≠ s) :
    ((delNextAt g s e).data n).next = (g.data n).next := by
  unfold delNextAt
  rw [Graph.setNode_data_ne _ _ _ _ hns]

theorem delNextAt_prev (g : Graph) (s : ℕ) (e : String) (n : ℕ) :
    ((delNextAt g s e).data n).prev = (g.data n).prev := by
  unfold delNextAt
  by_cases hns : n = s
  · subst hns; rw [Graph.setNode_data_self]
  · rw [Graph.setNode_data_ne _ _ _ _ hns]

theorem delNextAt_endpoints (g : Graph) (s : ℕ) (e : String) (n : ℕ) :
    ((delNextAt g s e).data n).endpoints = (g.data n).endpoints := by
  unfold delNextAt
  by_cases hns : n = s
  · subst hns; rw [Graph.setNode_data_self]
  · rw [Graph.setNode_data_ne _ _ _ _ hns]

theorem delNextAt_clears (g : Graph) (s : ℕ) (e : String) :
    alGet? (((delNextAt g s e).data s).next) (LinkKey.str e) = none := by
  unfold delNextAt
  rw [Graph.setNode_data_self]
  show alGet? (alDel ((g.data s).next) (LinkKey.str e)) (LinkKey.str e) = none
  rw [alGet?_alDel, if_pos rfl]

theorem delNextAt_next_keep (g : Graph) (s : ℕ) (e : String) (k : LinkKey)
    (hk : k ≠ LinkKey.str e) :
    alGet? (((delNextAt g s e).data s).next) k = alGet? ((g.data s).next) k := by
  unfold delNextAt
  rw [Graph.setNode_data_self]
  show alGet? (alDel ((g.data s).next) (LinkKey.str e)) k = alGet? ((g.data s).next) k
  rw [alGet?_alDel, if_neg hk]

theorem delNextAt_onlyDeletes (g : Graph) (s : ℕ) (e : String) :
    OnlyDeletes g (delNextAt g s e) := by
  intro B k
  constructor
  · exact Or.inl (by rw [delNextAt_prev])
  · by_cases hB : B = s
    · rw [hB]
      by_cases hk : k = LinkKey.str e
      · rw [hk]; exact Or.inr (delNextAt_clears g s e)
      · exact Or.inl (delNextAt_next_keep g s e k hk)
    · exact Or.inl (by rw [delNextAt_next_ne g s e B hB])

theorem delPrevAt_prev_ne (g : Graph) (s : ℕ) (e : String) (n : ℕ) (hns : n ≠ s) :
    ((delPrevAt g s e).data n).prev = (g.data n).prev := by
  unfold delPrevAt
  rw [Graph.setNode_data_ne _ _ _ _ hns]

theorem delPrevAt_next (g : Graph) (s : ℕ) (e : String) (n : ℕ) :
    ((delPrevAt g s e).data n).next = (g.data n).next := by
  unfold delPrevAt
  by_cases hns : n = s
  · subst hns; rw [Graph.setNode_data_self]
  · rw [Graph.setNode_data_ne _ _ _ _ hns]

theorem delPrevAt_endpoints (g : Graph) (s : ℕ) (e : String) (n : ℕ) :
    ((delPrevAt g s e).data n).endpoints = (g.data n).endpoints := by
  unfold delPrevAt
  by_cases hns : n = s
  · subst hns; rw [Graph.setNode_data_self]
  · rw [Graph.setNode_data_ne _ _ _ _ hns]

theorem delPrevAt_clears (g : Graph) (s : ℕ) (e : String) :
    alGet? (((delPrevAt g s e).data s).prev) (LinkKey.str e) = none := by
  unfold delPrevAt
  rw [Graph.setNode_data_self]
  show alGet? (alDel ((g.data s).prev) (LinkKey.str e)) (LinkKey.str e) = none
  rw [alGet?_alDel, if_pos rfl]

theorem delPrevAt_prev_keep (g : Graph) (s : ℕ) (e : String) (k : LinkKey)
    (hk : k ≠ LinkKey.str e) :
    alGet? (((delPrevAt g s e).data s).prev) k = alGet? ((g.data s).prev) k := by
  unfold delPrevAt
  rw [Graph.setNode_data_self]
  show alGet? (alDel ((g.data s).prev) (LinkKey.str e)) k = alGet? ((g.data s).prev) k
  rw [alGet?_alDel, if_neg hk]

theorem delPrevAt_onlyDeletes (g : Graph) (s : ℕ) (e : String) :
    OnlyDeletes g (delPrevAt g s e) := by
  intro B k
  constructor
  · by_cases hB : B = s
    · rw [hB]
      by_cases hk : k = LinkKey.str e
      · rw [hk]; exact Or.inr (delPrevAt_clears g s e)
      · exact Or.inl (delPrevAt_prev_keep g s e k hk)
    · exact Or.inl (by rw [delPrevAt_prev_ne g s e B hB])
  · exact Or.inl (by rw [delPrevAt_next])

theorem OnlyDeletes.next_none {g g' : Graph} (h : OnlyDeletes g g') {B : ℕ} {k : LinkKey}
    (hn : alGet? ((g.data B).next) k = none) :
    alGet? ((g'.data B).next) k = none := by
  rcases (h B k).2 with heq | heq
  · rw [heq]; exact hn
  · exact heq

theorem OnlyDeletes.prev_none {g g' : Graph} (h : OnlyDeletes g g') {B : ℕ} {k : LinkKey}
    (hn : alGet? ((g.data B).prev) k = none) :
    alGet? ((g'.data B).prev) k = none := by
  rcases (h B k).1 with heq | heq
  · rw [heq]; exact hn
  · exact heq

/-! ### C6: reverse-deletion loop lemmas -/

theorem delRevPrev_next (selfId tgt : ℕ) (keys : List String) :
    ∀ g n, ((delRevPrev selfId tgt g keys).data n).next = (g.data n).next := by
  induction keys with
  | nil => intro g n; rfl
  | cons ne rest ih =>
    intro g n
    show ((delRevPrev selfId tgt _ rest).data n).next = _
    by_cases hc : alGet? ((g.data tgt).prev) (LinkKey.str ne) = some selfId
    · rw [if_pos hc, ih]
      exact delPrevAt_next g tgt ne n
    · rw [if_neg hc, ih]

theorem delRevPrev_endpoints (selfId tgt : ℕ) (keys : List String) :
    ∀ g n, ((delRevPrev selfId tgt g keys).data n).endpoints = (g.data n).endpoints := by
  induction keys with
  | nil => intro g n; rfl
  | cons ne rest ih =>
    intro g n
    show ((delRevPrev selfId tgt _ rest).data n).endpoints = _
    by_cases hc : alGet? ((g.data tgt).prev) (LinkKey.str ne) = some selfId
    · rw [if_pos hc, ih]
      exact delPrevAt_endpoints g tgt ne n
    · rw [if_neg hc, ih]

theorem delRevPrev_onlyDeletes (selfId tgt : ℕ) (keys : List String) :
    ∀ g, OnlyDeletes g (delRevPrev selfId tgt g keys) := by
  induction keys with
  | nil => intro g; exact OnlyDeletes_refl g
  | cons ne rest ih =>
    intro g
    show OnlyDeletes g (delRevPrev selfId tgt _ rest)
    by_cases hc : alGet? ((g.data tgt).prev) (LinkKey.str ne) = some selfId
    · rw [if_pos hc]
      exact OnlyDeletes_trans (delPrevAt_onlyDeletes g tgt ne) (ih _)
    · rw [if_neg hc]
      exact ih g

theorem delRevPrev_keeps (selfId tgt : ℕ) (n : ℕ) (k : LinkKey) (B : ℕ)
    (hB : B ≠ selfId) (keys : List String) :
    ∀ g, alGet? ((g.data n).prev) k = some B →
      alGet? (((delRevPrev selfId tgt g keys).data n).prev) k = some B := by
  induction keys with
  | nil => intro g h; exact h
  | cons ne rest ih =>
    intro g h
    show alGet? (((delRevPrev selfId tgt _ rest).data n).prev) k = some B
    by_cases hc : alGet? ((g.data tgt).prev) (LinkKey.str ne) = some selfId
    · rw [if_pos hc]
      refine ih _ ?_
      by_cases hn : n = tgt
      · have hk : k ≠ LinkKey.str ne := by
          intro hke
          rw [hke, hn] at h
          rw [h] at hc
          exact hB (Option.some.inj hc)
        have h2 : alGet? (((delPrevAt g tgt ne).data tgt).prev) k = some B := by
          rw [delPrevAt_prev_keep g tgt ne k hk, ← hn]
          exact h
        rw [hn]
        exact h2
      · have h2 : alGet? (((delPrevAt g tgt ne).data n).prev) k = some B := by
          rw [delPrevAt_prev_ne g tgt ne n hn]
          exact h
        exact h2
    · rw [if_neg hc]
      exact ih g h

theorem delRevNext_prev (selfId tgt : ℕ) (keys : List String) :
    ∀ g n, ((delRevNext selfId tgt g keys).data n).prev = (g.data n).prev := by
  induction keys with
  | nil => intro g n; rfl
  | cons ne rest ih =>
    intro g n
    show ((delRevNext selfId tgt _ rest).data n).prev = _
    by_cases hc : alGet? ((g.data tgt).next) (LinkKey.str ne) = some selfId
    · rw [if_pos hc, ih]
      exact delNextAt_prev g tgt ne n
    · rw [if_neg hc, ih]

theorem delRevNext_endpoints (selfId tgt : ℕ) (keys : List String) :
    ∀ g n, ((delRevNext selfId tgt g keys).data n).endpoints = (g.data n).endpoints := by
  induction keys with
  | nil => intro g n; rfl
  | cons ne rest ih =>
    intro g n
    show ((delRevNext selfId tgt _ rest).data n).endpoints = _
    by_cases hc : alGet? ((g.data tgt).next) (LinkKey.str ne) = some selfId
    · rw [if_pos hc, ih]
      exact delNextAt_endpoints g tgt ne n
    · rw [if_neg hc, ih]

theorem delRevNext_onlyDeletes (selfId tgt : ℕ) (keys : List String) :
    ∀ g, OnlyDeletes g (delRevNext selfId tgt g keys) := by
  induction keys with
  | nil => intro g; exact OnlyDeletes_refl g
  | cons ne rest ih =>
    intro g
    show OnlyDeletes g (delRevNext selfId tgt _ rest)
    by_cases hc : alGet? ((g.data tgt).next) (LinkKey.str ne) = some selfId
    · rw [if_pos hc]
      exact OnlyDeletes_trans (delNextAt_onlyDeletes g tgt ne) (ih _)
    · rw [if_neg hc]
      exact ih g

theorem delRevNext_deletes (selfId tgt : ℕ) (pe : String) (keys : List String) :
    ∀ g, pe ∈ keys →
      alGet? ((g.data tgt).next) (LinkKey.str pe) = some selfId →
      alGet? (((delRevNext selfId tgt g keys).data tgt).next) (LinkKey.str pe) = none := by
  induction keys with
  | nil => intro g hpe _; cases hpe
  | cons ne rest ih =>
    intro g hpe hlk
    show alGet? (((delRevNext selfId tgt _ rest).data tgt).next) (LinkKey.str pe) = none
    by_cases hc : alGet? ((g.data tgt).next) (LinkKey.str ne) = some selfId
    · rw [if_pos hc]
      by_cases hne : pe = ne
      · subst hne
        exact OnlyDeletes.next_none (delRevNext_onlyDeletes selfId tgt rest _)
          (delNextAt_clears g tgt pe)
      · have hlk2 : alGet? (((delNextAt g tgt ne).data tgt).next) (LinkKey.str pe) =
            some selfId := by
          rw [delNextAt_next_keep g tgt ne (LinkKey.str pe)
            (fun hh => hne (LinkKey.str.inj hh))]
          exact hlk
        exact ih _ ((List.mem_cons.mp hpe).resolve_left hne) hlk2
    · rw [if_neg hc]
      have hne : pe ≠ ne := fun hh => hc (by rw [← hh]; exact hlk)
      exact ih g ((List.mem_cons.mp hpe).resolve_left hne) hlk

/-! ### C6: one `disconnect` iteration -/

theorem discStep_eq (g : Graph) (s : ℕ) (e : String) :
    discStep g s e = discStepPrev (discStepNext g s e) s e := rfl

theorem discStepNext_noop (g : Graph) (s : ℕ) (e : String)
    (hn : alGet? ((g.data s).next) (LinkKey.str e) = none) :
    discStepNext g s e = g := by
  unfold discStepNext
  rw [hn]

theorem discStepPrev_noop (g : Graph) (s : ℕ) (e : String)
    (hp : alGet? ((g.data s).prev) (LinkKey.str e) = none) :
    discStepPrev g s e = g := by
  unfold discStepPrev
  rw [hp]

theorem discStepNext_clears (g : Graph) (s : ℕ) (e : String) :
    alGet? (((discStepNext g s e).data s).next) (LinkKey.str e) = none := by
  unfold discStepNext
  cases hn : alGet? ((g.data s).next) (LinkKey.str e) with
  | none => exact hn
  | some tgt => exact delNextAt_clears _ s e

theorem discStepPrev_clears (g : Graph) (s : ℕ) (e : String) :
    alGet? (((discStepPrev g s e).data s).prev) (LinkKey.str e) = none := by
  unfold discStepPrev
  cases hp : alGet? ((g.data s).prev) (LinkKey.str e) with
  | none => exact hp
  | some tgt => exact delPrevAt_clears _ s e

theorem discStepNext_endpoints (g : Graph) (s : ℕ) (e : String) (n : ℕ) :
    ((discStepNext g s e).data n).endpoints = (g.data n).endpoints := by
  unfold discStepNext
  cases hn : alGet? ((g.data s).next) (LinkKey.str e) with
  | none => rfl
  | some tgt => rw [delNextAt_endpoints, delRevPrev_endpoints]

theorem discStepPrev_endpoints (g : Graph) (s : ℕ) (e : String) (n : ℕ) :
    ((discStepPrev g s e).data n).endpoints = (g.data n).endpoints := by
  unfold discStepPrev
  cases hp : alGet? ((g.data s).prev) (LinkKey.str e) with
  | none => rfl
  | some tgt => rw [delPrevAt_endpoints, delRevNext_endpoints]

theorem discStepNext_onlyDeletes (g : Graph) (s : ℕ) (e : String) :
    OnlyDeletes g (discStepNext g s e) := by
  unfold discStepNext
  cases hn : alGet? ((g.data s).next) (LinkKey.str e) with
  | none => exact OnlyDeletes_refl g
  | some tgt =>
    exact OnlyDeletes_trans (delRevPrev_onlyDeletes s tgt ((g.data tgt).endpoints.map Prod.fst) g)
      (delNextAt_onlyDeletes _ s e)

theorem discStepPrev_onlyDeletes (g : Graph) (s : ℕ) (e : String) :
    OnlyDeletes g (discStepPrev g s e) := by
  unfold discStepPrev
  cases hp : alGet? ((g.data s).prev) (LinkKey.str e) with
  | none => exact OnlyDeletes_refl g
  | some tgt =>
    exact OnlyDeletes_trans (delRevNext_onlyDeletes s tgt ((g.data tgt).endpoints.map Prod.fst) g)
      (delPrevAt_onlyDeletes _ s e)

theorem discStepNext_next_ne (g : Graph) (s : ℕ) (e : String) (n : ℕ) (hns : n ≠ s) :
    ((discStepNext g s e).data n).next = (g.data n).next := by
  unfold discStepNext
  cases hn : alGet? ((g.data s).next) (LinkKey.str e) with
  | none => rfl
  | some tgt => rw [delNextAt_next_ne _ s e n hns, delRevPrev_next]

theorem discStepNext_prev_some (g : Graph) (s : ℕ) (e : String) (n : ℕ) (k : LinkKey)
    (B : ℕ) (hB : B ≠ s) (h : alGet? ((g.data n).prev) k = some B) :
    alGet? (((discStepNext g s e).data n).prev) k = some B := by
  unfold discStepNext
  cases hn : alGet? ((g.data s).next) (LinkKey.str e) with
  | none => exact h
  | some tgt =>
    rw [delNextAt_prev]
    exact delRevPrev_keeps s tgt n k B hB _ g h

theorem discStepPrev_prev_keep (g : Graph) (s : ℕ) (e : String) (k : LinkKey)
    (hk : k ≠ LinkKey.str e) :
    alGet? (((discStepPrev g s e).data s).prev) k = alGet? ((g.data s).prev) k := by
  unfold discStepPrev
  cases hp : alGet? ((g.data s).prev) (LinkKey.str e) with
  | none => rfl
  | some tgt => rw [delPrevAt_prev_keep _ s e k hk, delRevNext_prev]

theorem discStepPrev_rev (g : Graph) (A B : ℕ) (e epb : String) (hBA : B ≠ A)
    (hp : alGet? ((g.data A).prev) (LinkKey.str e) = some B)
    (hn : alGet? ((g.data B).next) (LinkKey.str epb) = some A)
    (hepb : epb ∈ ((g.data B).endpoints).map Prod.fst) :
    alGet? (((discStepPrev g A e).data B).next) (LinkKey.str epb) = none := by
  unfold discStepPrev
  cases hsc : alGet? ((g.data A).prev) (LinkKey.str e) with
  | none => rw [hp] at hsc; cases hsc
  | some tgt =>
    rw [hp] at hsc
    injection hsc with htgt
    subst htgt
    rw [delPrevAt_next]
    exact delRevNext_deletes A B epb (((g.data B).endpoints).map Prod.fst) g hepb hn

theorem discStep_onlyDeletes (g : Graph) (s : ℕ) (e : String) :
    OnlyDeletes g (discStep g s e) := by
  rw [discStep_eq]
  exact OnlyDeletes_trans (discStepNext_onlyDeletes g s e) (discStepPrev_onlyDeletes _ s e)

theorem discStep_endpoints (g : Graph) (s : ℕ) (e : String) (n : ℕ) :
    ((discStep g s e).data n).endpoints = (g.data n).endpoints := by
  rw [discStep_eq, discStepPrev_endpoints, discStepNext_endpoints]

theorem discStep_clears (g : Graph) (s : ℕ) (e : String) :
    alGet? (((discStep g s e).data s).next) (LinkKey.str e) = none ∧
    alGet? (((discStep g s e).data s).prev) (LinkKey.str e) = none := by
  rw [discStep_eq]
  exact ⟨OnlyDeletes.next_none (discStepPrev_onlyDeletes _ s e) (discStepNext_clears g s e),
    discStepPrev_clears _ s e⟩

theorem discStep_noop (g : Graph) (s : ℕ) (e : String)
    (hn : alGet? ((g.data s).next) (LinkKey.str e) = none)
    (hp : alGet? ((g.data s).prev) (LinkKey.str e) = none) :
    discStep g s e = g := by
  rw [discStep_eq, discStepNext_noop g s e hn, discStepPrev_noop g s e hp]

theorem discStep_prev_keeps (g : Graph) (A : ℕ) (e : String) (k : LinkKey) (B : ℕ)
    (hBA : B ≠ A) (hk : k ≠ LinkKey.str e)
    (h : alGet? ((g.data A).prev) k = some B) :
    alGet? (((discStep g A e).data A).prev) k = some B := by
  rw [discStep_eq, discStepPrev_prev_keep _ A e k hk]
  exact discStepNext_prev_some g A e A k B hBA h

theorem discStep_rev (g : Graph) (A B : ℕ) (e epb : String) (hBA : B ≠ A)
    (hp : alGet? ((g.data A).prev) (LinkKey.str e) = some B)
    (hn : alGet? ((g.data B).next) (LinkKey.str epb) = some A)
    (hepb : epb ∈ ((g.data B).endpoints).map Prod.fst) :
    alGet? (((discStep g A e).data B).next) (LinkKey.str epb) = none := by
  rw [discStep_eq]
  refine discStepPrev_rev _ A B e epb hBA ?_ ?_ ?_
  · exact discStepNext_prev_some g A e A (LinkKey.str e) B hBA hp
  · rw [discStepNext_next_ne g A e B hBA]; exact hn
  · rw [discStepNext_endpoints]; exact hepb

theorem invAB_discStep (g : Graph) (A B : ℕ) (epa epb e : String) (hBA : B ≠ A)
    (he : epa ≠ e)
    (h : (alGet? ((g.data A).prev) (LinkKey.str epa) = some B ∧
          alGet? ((g.data B).next) (LinkKey.str epb) = some A) ∨
        alGet? ((g.data B).next) (LinkKey.str epb) = none) :
    (alGet? (((discStep g A e).data A).prev) (LinkKey.str epa) = some B ∧
      alGet? (((discStep g A e).data B).next) (LinkKey.str epb) = some A) ∨
    alGet? (((discStep g A e).data B).next) (LinkKey.str epb) = none := by
  rcases h with ⟨hp, hn⟩ | hn
  · rcases ((discStep_onlyDeletes g A e) B (LinkKey.str epb)).2 with heq | hnone
    · refine Or.inl ⟨?_, ?_⟩
      · exact discStep_prev_keeps g A e (LinkKey.str epa) B hBA
          (fun hh => he (LinkKey.str.inj hh)) hp
      · rw [heq]; exact hn
    · exact Or.inr hnone
  · exact Or.inr (OnlyDeletes.next_none (discStep_onlyDeletes g A e) hn)

/-! ### C6: whole-loop lemmas -/

theorem discLoop_onlyDeletes (s : ℕ) (keys : List String) :
    ∀ g, OnlyDeletes g (discLoop s g keys) := by
  induction keys with
  | nil => intro g; exact OnlyDeletes_refl g
  | cons e rest ih =>
    intro g
    show OnlyDeletes g (discLoop s (discStep g s e) rest)
    exact OnlyDeletes_trans (discStep_onlyDeletes g s e) (ih _)

theorem discLoop_clears (s : ℕ) (e : String) (keys : List String) :
    ∀ g, e ∈ keys →
      alGet? (((discLoop s g keys).data s).next) (LinkKey.str e) = none ∧
      alGet? (((discLoop s g keys).data s).prev) (LinkKey.str e) = none := by
  induction keys with
  | nil => intro g he; cases he
  | cons e' rest ih =>
    intro g he
    show alGet? (((discLoop s (discStep g s e') rest).data s).next) (LinkKey.str e) = none ∧
      alGet? (((discLoop s (discStep g s e') rest).data s).prev) (LinkKey.str e) = none
    by_cases hee : e = e'
    · subst hee
      have h1 := discStep_clears g s e
      have h2 := discLoop_onlyDeletes s rest (discStep g s e)
      exact ⟨OnlyDeletes.next_none h2 h1.1, OnlyDeletes.prev_none h2 h1.2⟩
    · exact ih _ ((List.mem_cons.mp he).resolve_left hee)

theorem discLoop_noop (s : ℕ) (keys : List String) :
    ∀ g, (∀ e ∈ keys, alGet? ((g.data s).next) (LinkKey.str e) = none ∧
        alGet? ((g.data s).prev) (LinkKey.str e) = none) →
      discLoop s g keys = g := by
  induction keys with
  | nil => intro g _; rfl
  | cons e rest ih =>
    intro g h
    show discLoop s (discStep g s e) rest = g
    rw [discStep_noop g s e (h e (List.mem_cons_self _ _)).1 (h e (List.mem_cons_self _ _)).2]
    exact ih g (fun e' he' => h e' (List.mem_cons_of_mem _ he'))

theorem discLoop_rev (A B : ℕ) (epa epb : String) (hBA : B ≠ A) (keys : List String) :
    ∀ g, epa ∈ keys →
      ((alGet? ((g.data A).prev) (LinkKey.str epa) = some B ∧
        alGet? ((g.data B).next) (LinkKey.str epb) = some A) ∨
        alGet? ((g.data B).next) (LinkKey.str epb) = none) →
      epb ∈ ((g.data B).endpoints).map Prod.fst →
      alGet? (((discLoop A g keys).data B).next) (LinkKey.str epb) = none := by
  induction keys with
  | nil => intro g he _ _; cases he
  | cons e rest ih =>
    intro g he hinv hepb
    show alGet? (((discLoop A (discStep g A e) rest).data B).next) (LinkKey.str epb) = none
    by_cases hee : epa = e
    · subst hee
      rcases hinv with ⟨hp, hn⟩ | hn
      · exact OnlyDeletes.next_none (discLoop_onlyDeletes A rest _)
          (discStep_rev g A B epa epb hBA hp hn hepb)
      · exact OnlyDeletes.next_none (discLoop_onlyDeletes A rest _)
          (OnlyDeletes.next_none (discStep_onlyDeletes g A epa) hn)
    · refine ih _ ((List.mem_cons.mp he).resolve_left hee)
        (invAB_discStep g A B epa epb e hBA hee hinv) ?_
      rw [discStep_endpoints]
      exact hepb

theorem disconnect_clears (g : Graph) (s : ℕ) (e : String)
    (he : e ∈ ((g.data s).endpoints).map Prod.fst) :
    alGet? (((disconnect g s).data s).next) (LinkKey.str e) = none ∧
    alGet? (((disconnect g s).data s).prev) (LinkKey.str e) = none :=
  discLoop_clears s e _ g he

theorem disconnect_idem (g : Graph) (s : ℕ) :
    disconnect (disconnect g s) s = disconnect g s := by
  have hK : (((disconnect g s).data s).endpoints).map Prod.fst =
      ((g.data s).endpoints).map Prod.fst := by
    rw [(disconnect_discSafe g s).1 s]
  show discLoop s (disconnect g s) ((((disconnect g s).data s).endpoints).map Prod.fst) =
    disconnect g s
  rw [hK]
  exact discLoop_noop s _ _ (fun e he => disconnect_clears g s e he)

/-! ### C6: the links `connect` leaves behind -/

theorem linkNodes_prev_self (g2 : Graph) (a : ℕ) (kp : LinkKey) (b : ℕ) (kn : LinkKey) :
    alGet? (((linkNodes g2 a kp b kn).data a).prev) kp = some b := by
  unfold linkNodes
  rw [Graph.setNode_data_self]
  exact alGet?_alSet_self _ _ _

theorem linkNodes_next_to (g2 : Graph) (a : ℕ) (kp : LinkKey) (b : ℕ) (kn : LinkKey)
    (hba : b ≠ a) :
    alGet? (((linkNodes g2 a kp b kn).data b).next) kn = some a := by
  unfold linkNodes
  rw [Graph.setNode_data_ne _ _ _ _ hba, Graph.setNode_data_self]
  exact alGet?_alSet_self _ _ _

theorem linkNodes_endpoints (g2 : Graph) (a : ℕ) (kp : LinkKey) (b : ℕ) (kn : LinkKey)
    (n : ℕ) : ((linkNodes g2 a kp b kn).data n).endpoints = (g2.data n).endpoints := by
  unfold linkNodes
  by_cases hna : n = a
  · rw [hna, Graph.setNode_data_self]
    show ((g2.setNode b { g2.data b with
      next := alSet ((g2.data b).next) kn a }).data a).endpoints = (g2.data a).endpoints
    by_cases hab : a = b
    · rw [hab, Graph.setNode_data_self]
    · rw [Graph.setNode_data_ne _ _ _ _ hab]
  · rw [Graph.setNode_data_ne _ _ _ _ hna]
    by_cases hnb : n = b
    · rw [hnb, Graph.setNode_data_self]
    · rw [Graph.setNode_data_ne _ _ _ _ hnb]

theorem connectRest_facts (fuel : ℕ) (g1 : Graph) (a : ℕ) (epa : String) (b : ℕ)
    (epb : String) (off : ℚ × ℚ) (gf : Graph) (hab : a ≠ b)
    (h : connectRest fuel g1 a epa b epb off false = some gf) :
    alGet? ((gf.data a).prev) (LinkKey.str epa) = some b ∧
    alGet? ((gf.data b).next) (LinkKey.str epb) = some a ∧
    epa ∈ ((gf.data a).endpoints).map Prod.fst ∧
    epb ∈ ((gf.data b).endpoints).map Prod.fst := by
  unfold connectRest at h
  cases hpto : alGet? ((g1.data b).endpoints) epb with
  | none => rw [hpto] at h; cases h
  | some pto =>
    rw [hpto] at h
    simp only [bind, Option.bind] at h
    cases hpse : alGet? ((g1.data a).endpoints) epa with
    | none => rw [hpse] at h; cases h
    | some pse =>
      rw [hpse] at h
      simp only [Option.bind] at h
      cases htr : translate fuel g1 a (pto.1 - pse.1 + off.1, pto.2 - pse.2 + off.2) with
      | none => rw [htr] at h; cases h
      | some r =>
        rw [htr] at h
        simp only [Option.bind, pure, Option.some.injEq] at h
        have hE : linkNodes r.1 a (LinkKey.str epa) b (LinkKey.str epb) = gf := h
        have hle : GraphLE g1 r.1 :=
          propGo_pres (movStep (pto.1 - pse.1 + off.1, pto.2 - pse.2 + off.2))
            (movStep_preserves _) fuel g1 a () [] [] r htr
        refine ⟨?_, ?_, ?_, ?_⟩
        · rw [← hE]
          exact linkNodes_prev_self r.1 a (LinkKey.str epa) b (LinkKey.str epb)
        · rw [← hE]
          exact linkNodes_next_to r.1 a (LinkKey.str epa) b (LinkKey.str epb) (Ne.symm hab)
        · rw [← hE, linkNodes_endpoints, (hle.2 a).2.2.2.1]
          exact alGet?_some_mem _ _ _ hpse
        · rw [← hE, linkNodes_endpoints, (hle.2 b).2.2.2.1]
          exact alGet?_some_mem _ _ _ hpto

theorem connect_facts (T : Trig) (fuel : ℕ) (g : Graph) (a : ℕ) (epa : String) (b : ℕ)
    (epb : String) (off : ℚ × ℚ) (rotF : Bool) (gf : Graph) (hab : a ≠ b)
    (h : connect T fuel g a epa b epb off false rotF = some gf) :
    alGet? ((gf.data a).prev) (LinkKey.str epa) = some b ∧
    alGet? ((gf.data b).next) (LinkKey.str epb) = some a ∧
    epa ∈ ((gf.data a).endpoints).map Prod.fst ∧
    epb ∈ ((gf.data b).endpoints).map Prod.fst := by
  simp only [connect] at h
  split at h
  · cases hdto : alGet? ((g.data b).endpoint_directions.getD []) epb with
    | none => rw [hdto] at h; cases h
    | some dto =>
      rw [hdto] at h
      simp only [bind, Option.bind] at h
      cases hdse : alGet? ((g.data a).endpoint_directions.getD []) epa with
      | none => rw [hdse] at h; cases h
      | some dse =>
        rw [hdse] at h
        simp only [Option.bind] at h
        cases hrot : rotate T fuel g a (pyMod (dto - dse - np_pi) (2 * np_pi)) with
        | none => rw [hrot] at h; cases h
        | some r =>
          rw [hrot] at h
          exact connectRest_facts fuel r.1 a epa b epb off gf hab h
  · exact connectRest_facts fuel g a epa b epb off gf hab h

/-! ### C6 -/

/-- C6: for a port-keyed `connect(ep_self, to, ep_to)` between two distinct
objects, a subsequent `self.disconnect()` removes the link from both sides:
`self.prev` no longer maps the port (nor does `self.next`), and `to.next` no
longer maps the reverse port, so no dangling half-link remains; moreover a
second `disconnect()` on `self` is a no-op on the whole heap. -/
theorem c6_connect_disconnect (T : Trig) (fuel : ℕ) (g : Graph) (a : ℕ) (epa : String)
    (b : ℕ) (epb : String) (off : ℚ × ℚ) (rotF : Bool) (gf : Graph) (hab : a ≠ b)
    (hconn : connect T fuel g a epa b epb off false rotF = some gf) :
    alGet? (((disconnect gf a).data a).prev) (LinkKey.str epa) = none ∧
    alGet? (((disconnect gf a).data a).next) (LinkKey.str epa) = none ∧
    alGet? (((disconnect gf a).data b).next) (LinkKey.str epb) = none ∧
    disconnect (disconnect gf a) a = disconnect gf a := by
  obtain ⟨hprev, hnext, hepa, hepb⟩ :=
    connect_facts T fuel g a epa b epb off rotF gf hab hconn
  refine ⟨(disconnect_clears gf a epa hepa).2, (disconnect_clears gf a epa hepa).1, ?_,
    disconnect_idem gf a⟩
  exact discLoop_rev a b epa epb (Ne.symm hab) _ gf hepa (Or.inl ⟨hprev, hnext⟩) hepb

unseal Rat.mul Rat.add Rat.inv Rat.sub in
/-- Check of `c6_connect_disconnect` on `gC6`: ports `a` of object 0 and `b`
of object 1 are connected, then object 0 is disconnected. -/
theorem c6_witness :
    ((0 : ℕ) ≠ 1 ∧ connect trig0 5 gC6 0 "a" 1 "b" (0, 0) false true = some gC6r) ∧
    (alGet? (((disconnect gC6r 0).data 0).prev) (LinkKey.str "a") = none ∧
      alGet? (((disconnect gC6r 0).data 0).next) (LinkKey.str "a") = none ∧
      alGet? (((disconnect gC6r 0).data 1).next) (LinkKey.str "b") = none ∧
      disconnect (disconnect gC6r 0) 0 = disconnect gC6r 0) :=
  ⟨⟨by decide, rfl⟩,
   c6_connect_disconnect trig0 5 gC6 0 "a" 1 "b" (0, 0) true gC6r (by decide) rfl⟩

/-! ### C7: `copy` -/

theorem le_foldr_max (l : List ℕ) : ∀ n ∈ l, n ≤ l.foldr max 0 := by
  induction l with
  | nil => intro n hn; cases hn
  | cons a t ih =>
    intro n hn
    rcases List.mem_cons.mp hn with rfl | hn
    · exact le_max_left _ _
    · exact le_trans (ih n hn) (le_max_right _ _)

theorem freshId_not_mem (g : Graph) : g.freshId ∉ g.nodes := fun hmem =>
  Nat.not_succ_le_self _ (le_foldr_max g.nodes _ hmem)

theorem Graph.addNode_nodes (g : Graph) (id : ℕ) (nd : GDSNode) :
    (g.addNode id nd).nodes = g.nodes ++ [id] := rfl

theorem Graph.addNode_data_self (g : Graph) (id : ℕ) (nd : GDSNode) :
    (g.addNode id nd).data id = nd := by simp [Graph.addNode]

theorem Graph.addNode_data_ne (g : Graph) (id : ℕ) (nd : GDSNode) (n : ℕ) (h : n ≠ id) :
    (g.addNode id nd).data n = g.data n := by simp [Graph.addNode, h]

theorem alSet_keys_append {κ ν : Type} [DecidableEq κ] (l : List (κ × ν)) (k : κ) (v : ν)
    (hk : k ∉ l.map Prod.fst) :
    (alSet l k v).map Prod.fst = l.map Prod.fst ++ [k] := by
  induction l with
  | nil => rfl
  | cons p t ih =>
    obtain ⟨a, b⟩ := p
    have hak : ¬ a = k := by
      intro hh
      rw [List.map_cons] at hk
      exact hk (by rw [← hh]; exact List.mem_cons_self a _)
    have htail : k ∉ t.map Prod.fst := by
      intro hh
      rw [List.map_cons] at hk
      exact hk (List.mem_cons_of_mem _ hh)
    simp only [alSet]
    rw [if_neg hak, List.map_cons, List.map_cons, ih htail, List.cons_append]

theorem alSet_append {κ ν : Type} [DecidableEq κ] (l : List (κ × ν)) (k : κ) (v : ν)
    (hk : k ∉ l.map Prod.fst) :
    alSet l k v = l ++ [(k, v)] := by
  induction l with
  | nil => rfl
  | cons p t ih =>
    obtain ⟨a, b⟩ := p
    have hak : ¬ a = k := by
      intro hh
      rw [List.map_cons] at hk
      exact hk (by rw [← hh]; exact List.mem_cons_self a _)
    have htail : k ∉ t.map Prod.fst := by
      intro hh
      rw [List.map_cons] at hk
      exact hk (List.mem_cons_of_mem _ hh)
    simp only [alSet]
    rw [if_neg hak, ih htail, List.cons_append]

theorem copy_zero (g : Graph) (id : ℕ) : copy 0 g id = none := rfl

theorem copy_succ (fuel : ℕ) (g : Graph) (id : ℕ) :
    copy (fuel + 1) g id = copyBody (copy fuel) g id := rfl

theorem copyFold_spec (recur : Graph → ℕ → Option (Graph × ℕ))
    (Hrec : ∀ g c gf cid, recur g c = some (gf, cid) →
      (∀ n ∈ g.nodes, gf.data n = g.data n) ∧ (∃ ext, gf.nodes = g.nodes ++ ext) ∧
      cid ∉ g.nodes ∧ cid ∈ gf.nodes)
    (newId : ℕ) (cs : List ℕ) :
    ∀ (i : ℕ) (g : Graph) (acc : List ℕ) (g2 : Graph) (comp : List ℕ),
      newId ∈ g.nodes →
      copyFold recur cs i g newId acc = some (g2, comp) →
      (∀ n ∈ g.nodes, n ≠ newId → g2.data n = g.data n) ∧
      (∃ ext, g2.nodes = g.nodes ++ ext) ∧
      ((g2.data newId).struct = (g.data newId).struct ∧
        (g2.data newId).endpoints = (g.data newId).endpoints ∧
        (g2.data newId).endpoint_dims = (g.data newId).endpoint_dims ∧
        (g2.data newId).endpoint_directions = (g.data newId).endpoint_directions ∧
        (g2.data newId).compound = (g.data newId).compound ∧
        (g2.data newId).prev = (g.data newId).prev) ∧
      ∃ made : List ℕ,
        comp = acc ++ made ∧
        List.Forall₂ (fun c m => ∃ gin gout, recur gin c = some (gout, m)) cs made ∧
        (∀ m ∈ made, m ∉ g.nodes ∧ m ∈ g2.nodes) ∧
        ((∀ j, LinkKey.idx j ∈ ((g.data newId).next).map Prod.fst → j < i) →
          ((g2.data newId).next).map Prod.fst =
            ((g.data newId).next).map Prod.fst ++ (List.range' i cs.length).map LinkKey.idx ∧
          (g2.data newId).next =
            (g.data newId).next ++ (((List.range' i cs.length).map LinkKey.idx).zip made)) := by
  induction cs with
  | nil =>
    intro i g acc g2 comp hmem h
    unfold copyFold at h
    rw [Option.some.injEq, Prod.mk.injEq] at h
    obtain ⟨h1, h2⟩ := h
    subst h1
    refine ⟨fun n _ _ => rfl, ⟨[], (List.append_nil _).symm⟩,
      ⟨rfl, rfl, rfl, rfl, rfl, rfl⟩, [], ?_, List.Forall₂.nil,
      fun m hm => absurd hm (List.not_mem_nil _), ?_⟩
    · rw [← h2, List.append_nil]
    · intro _
      constructor <;> simp
  | cons c rest ih =>
    intro i g acc g2 comp hmem h
    unfold copyFold at h
    cases hr : recur g c with
    | none => rw [hr] at h; cases h
    | some p =>
      obtain ⟨g', cCopy⟩ := p
      rw [hr] at h
      simp only at h
      obtain ⟨hpres', hexts, hfreshc, hmemc⟩ := Hrec g c g' cCopy hr
      obtain ⟨ext', hext'⟩ := hexts
      have hnode : g'.data newId = g.data newId := hpres' newId hmem
      set gm := g'.setNode newId
        { g'.data newId with next := alSet ((g'.data newId).next) (LinkKey.idx i) cCopy }
        with hT
      have hgm : gm.data newId = { g.data newId with
          next := alSet ((g.data newId).next) (LinkKey.idx i) cCopy } := by
        rw [hT, Graph.setNode_data_self, hnode]
      have hgmn : gm.nodes = g.nodes ++ ext' := by
        rw [hT, Graph.setNode_nodes, hext']
      have hgmn2 : gm.nodes = g'.nodes := by
        rw [hT, Graph.setNode_nodes]
      have hmem' : newId ∈ gm.nodes := by
        rw [hgmn]; exact List.mem_append_left _ hmem
      obtain ⟨ihpres, ⟨ext2, ihext⟩, ihfields, made', ihcomp, ihfa, ihfresh, ihcond⟩ :=
        ih (i + 1) gm (acc ++ [cCopy]) g2 comp hmem' h
      refine ⟨?_, ⟨ext' ++ ext2, ?_⟩, ?_, cCopy :: made', ?_, ?_, ?_, ?_⟩
      · intro n hn hne
        have hn' : n ∈ gm.nodes := by rw [hgmn]; exact List.mem_append_left _ hn
        rw [ihpres n hn' hne, hT, Graph.setNode_data_ne _ _ _ _ hne, hpres' n hn]
      · rw [ihext, hgmn, List.append_assoc]
      · refine ⟨?_, ?_, ?_, ?_, ?_, ?_⟩
        · rw [ihfields.1, hgm]
        · rw [ihfields.2.1, hgm]
        · rw [ihfields.2.2.1, hgm]
        · rw [ihfields.2.2.2.1, hgm]
        · rw [ihfields.2.2.2.2.1, hgm]
        · rw [ihfields.2.2.2.2.2, hgm]
      · rw [ihcomp, List.append_assoc, List.singleton_append]
      · exact List.Forall₂.cons ⟨g, g', hr⟩ ihfa
      · intro m hm
        rcases List.mem_cons.mp hm with rfl | hm'
        · refine ⟨hfreshc, ?_⟩
          rw [ihext, hgmn2]
          exact List.mem_append_left _ hmemc
        · obtain ⟨hm1, hm2⟩ := ihfresh m hm'
          refine ⟨fun hin => hm1 ?_, hm2⟩
          rw [hgmn]
          exact List.mem_append_left _ hin
      · intro HJ
        have hnotin : LinkKey.idx i ∉ ((g.data newId).next).map Prod.fst := by
          intro hin
          exact absurd (HJ i hin) (Nat.lt_irrefl i)
        have hkeysm : ((gm.data newId).next).map Prod.fst =
            ((g.data newId).next).map Prod.fst ++ [LinkKey.idx i] := by
          rw [hgm]
          exact alSet_keys_append _ _ _ hnotin
        have hvalm : (gm.data newId).next =
            (g.data newId).next ++ [(LinkKey.idx i, cCopy)] := by
          rw [hgm]
          exact alSet_append _ _ _ hnotin
        have HJ2 : ∀ j, LinkKey.idx j ∈ ((gm.data newId).next).map Prod.fst → j < i + 1 := by
          intro j hj
          rw [hkeysm] at hj
          rcases List.mem_append.mp hj with hj | hj
          · exact Nat.lt_succ_of_lt (HJ j hj)
          · rw [List.mem_singleton] at hj
            rw [LinkKey.idx.inj hj]
            exact Nat.lt_succ_self i
        obtain ⟨ihkeys, ihval⟩ := ihcond HJ2
        constructor
        · rw [ihkeys, hkeysm]
          simp [List.range'_succ, List.length_cons, List.append_assoc]
        · rw [ihval, hvalm]
          simp [List.range'_succ, List.length_cons, List.append_assoc]

theorem copy_spec (fuel : ℕ) :
    ∀ (g : Graph) (id : ℕ) (gf : Graph) (nid : ℕ), copy fuel g id = some (gf, nid) →
      nid = g.freshId ∧
      nid ∈ gf.nodes ∧
      (∀ n ∈ g.nodes, gf.data n = g.data n) ∧
      (∃ ext, gf.nodes = g.nodes ++ ext) ∧
      (gf.data nid).struct = (g.data id).struct ∧
      (gf.data nid).endpoints = (g.data id).endpoints ∧
      (gf.data nid).endpoint_dims = (g.data id).endpoint_dims ∧
      (gf.data nid).endpoint_directions = (g.data id).endpoint_directions ∧
      (gf.data nid).prev = [] ∧
      ((gf.data nid).next).map Prod.fst =
        (List.range ((g.data id).compound).length).map LinkKey.idx ∧
      (gf.data nid).next =
        ((List.range ((g.data id).compound).length).map LinkKey.idx).zip
          ((gf.data nid).compound) ∧
      List.Forall₂ (fun c m => ∃ f gin gout, copy f gin c = some (gout, m))
        ((g.data id).compound) ((gf.data nid).compound) ∧
      ∀ m ∈ (gf.data nid).compound, m ∉ g.nodes ∧ m ∈ gf.nodes := by
  induction fuel with
  | zero => intro g id gf nid h; rw [copy_zero] at h; cases h
  | succ fuel ih =>
    intro g id gf nid h
    rw [copy_succ] at h
    simp only [copyBody] at h
    set nd0 : GDSNode := ({ struct := (g.data id).struct, endpoints := (g.data id).endpoints, endpoint_dims := (g.data id).endpoint_dims, endpoint_directions := (g.data id).endpoint_directions, compound := [], prev := [], next := [] } : GDSNode) with hnd0
    set g1 : Graph := g.addNode g.freshId nd0 with hg1
    have Hrec : ∀ g0 c gf0 cid, copy fuel g0 c = some (gf0, cid) →
        (∀ n ∈ g0.nodes, gf0.data n = g0.data n) ∧ (∃ ext, gf0.nodes = g0.nodes ++ ext) ∧
        cid ∉ g0.nodes ∧ cid ∈ gf0.nodes := by
      intro g0 c gf0 cid hc
      obtain ⟨hfid, hmm, hpr, hex, _⟩ := ih g0 c gf0 cid hc
      refine ⟨hpr, hex, ?_, hmm⟩
      rw [hfid]
      exact freshId_not_mem g0
    cases hcf : copyFold (copy fuel) ((g.data id).compound) 0 g1 g.freshId [] with
    | none => rw [hcf] at h; cases h
    | some q =>
      obtain ⟨g2, comp⟩ := q
      rw [hcf] at h
      simp only at h
      rw [Option.some.injEq, Prod.mk.injEq] at h
      obtain ⟨h1, h2⟩ := h
      subst h2
      subst h1
      have hmem1 : g.freshId ∈ g1.nodes := by
        rw [hg1, Graph.addNode_nodes]
        exact List.mem_append_right _ (List.mem_singleton_self _)
      obtain ⟨Qpres, ⟨ext1, Qext⟩, Qfields, made, Qcomp, Qfa, Qfresh, Qcond⟩ :=
        copyFold_spec (copy fuel) Hrec g.freshId ((g.data id).compound) 0 g1 [] g2 comp
          hmem1 hcf
      have hg1self : g1.data g.freshId = nd0 := by
        rw [hg1]
        exact Graph.addNode_data_self g _ _
      have hkeys0 : ∀ j, LinkKey.idx j ∈ ((g1.data g.freshId).next).map Prod.fst → j < 0 := by
        intro j hj
        rw [hg1self] at hj
        cases hj
      obtain ⟨Qkeys, Qval⟩ := Qcond hkeys0
      have hmade : comp = made := by rw [Qcomp, List.nil_append]
      refine ⟨rfl, ?_, ?_, ?_, ?_, ?_, ?_, ?_, ?_, ?_, ?_, ?_, ?_⟩
      · rw [Graph.setNode_nodes, Qext]
        exact List.mem_append_left _ hmem1
      · intro n hn
        have hne : n ≠ g.freshId := fun hh => freshId_not_mem g (hh ▸ hn)
        have hn1 : n ∈ g1.nodes := by
          rw [hg1, Graph.addNode_nodes]
          exact List.mem_append_left _ hn
        rw [Graph.setNode_data_ne _ _ _ _ hne, Qpres n hn1 hne, hg1,
          Graph.addNode_data_ne _ _ _ _ hne]
      · refine ⟨[g.freshId] ++ ext1, ?_⟩
        rw [Graph.setNode_nodes, Qext, hg1, Graph.addNode_nodes, List.append_assoc]
      · rw [Graph.setNode_data_self]
        show (g2.data g.freshId).struct = (g.data id).struct
        rw [Qfields.1, hg1self]
      · rw [Graph.setNode_data_self]
        show (g2.data g.freshId).endpoints = (g.data id).endpoints
        rw [Qfields.2.1, hg1self]
      · rw [Graph.setNode_data_self]
        show (g2.data g.freshId).endpoint_dims = (g.data id).endpoint_dims
        rw [Qfields.2.2.1, hg1self]
      · rw [Graph.setNode_data_self]
        show (g2.data g.freshId).endpoint_directions = (g.data id).endpoint_directions
        rw [Qfields.2.2.2.1, hg1self]
      · rw [Graph.setNode_data_self]
        show (g2.data g.freshId).prev = []
        rw [Qfields.2.2.2.2.2, hg1self]
      · rw [Graph.setNode_data_self]
        show ((g2.data g.freshId).next).map Prod.fst = _
        rw [Qkeys, hg1self]
        show ([] : List LinkKey) ++ _ = _
        rw [List.nil_append, ← List.range_eq_range']
      · rw [Graph.setNode_data_self]
        show (g2.data g.freshId).next =
          ((List.range ((g.data id).compound).length).map LinkKey.idx).zip comp
        rw [Qval, hg1self, hmade]
        show ([] : List (LinkKey × ℕ)) ++ _ = _
        rw [List.nil_append, ← List.range_eq_range']
      · rw [Graph.setNode_data_self]
        show List.Forall₂ _ ((g.data id).compound) comp
        rw [hmade]
        exact List.Forall₂.imp (fun c m hcm =>
          match hcm with
          | ⟨gin, gout, hh⟩ => ⟨fuel, gin, gout, hh⟩) Qfa
      · intro m hm
        rw [Graph.setNode_data_self] at hm
        have hm2 : m ∈ comp := hm
        rw [hmade] at hm2
        obtain ⟨f1, f2⟩ := Qfresh m hm2
        refine ⟨fun hin => f1 ?_, ?_⟩
        · rw [hg1, Graph.addNode_nodes]
          exact List.mem_append_left _ hin
        · rw [Graph.setNode_nodes]
          exact f2

/-- C7 (amended): whenever `copy` returns, the new object is fresh (it is not
any pre-existing object and no pre-existing object is modified), carries the
same geometry, ports, port dimensions and port directions as the original at
copy time, and its predecessor dict is empty; its successor dict, however, is
not empty whenever the node has children: it is exactly the integer keys
`0 .. len(compound)-1` zipped with the copy's own children list, where each of
those children is the identity returned by a recursive `copy` call on the
corresponding original child and is a freshly allocated object — so the copy
references no pre-existing node. -/
theorem c7_copy_fresh_and_indexed (fuel : ℕ) (g : Graph) (id : ℕ) (gf : Graph) (nid : ℕ)
    (h : copy fuel g id = some (gf, nid)) :
    nid ∉ g.nodes ∧
    (∀ n ∈ g.nodes, gf.data n = g.data n) ∧
    (gf.data nid).struct = (g.data id).struct ∧
    (gf.data nid).endpoints = (g.data id).endpoints ∧
    (gf.data nid).endpoint_dims = (g.data id).endpoint_dims ∧
    (gf.data nid).endpoint_directions = (g.data id).endpoint_directions ∧
    (gf.data nid).prev = [] ∧
    ((gf.data nid).next).map Prod.fst =
      (List.range ((g.data id).compound).length).map LinkKey.idx ∧
    (gf.data nid).next =
      ((List.range ((g.data id).compound).length).map LinkKey.idx).zip
        ((gf.data nid).compound) ∧
    List.Forall₂ (fun c m => ∃ f gin gout, copy f gin c = some (gout, m))
      ((g.data id).compound) ((gf.data nid).compound) ∧
    ∀ m ∈ (gf.data nid).compound, m ∉ g.nodes ∧ m ∈ gf.nodes := by
  obtain ⟨hnid, _, hpres, _, hst, hep, hdm, hdr, hpv, hnx, hval, hfa, hfresh⟩ :=
    copy_spec fuel g id gf nid h
  subst hnid
  exact ⟨freshId_not_mem g, hpres, hst, hep, hdm, hdr, hpv, hnx, hval, hfa, hfresh⟩

/-- C7 (counterexample): on `gC7` object 0 has one child, and the copy's
successor dict is `{0: <child copy>}`, not empty as the claim demands. -/
theorem c7_counterexample :
    (copy 3 gC7 0).map (fun r => ((r.1.data r.2).next, (r.1.data r.2).prev)) =
      some ([(LinkKey.idx 0, 3)], []) ∧
    ([(LinkKey.idx 0, 3)] : List (LinkKey × ℕ)) ≠ [] := by
  decide

/-- Check of `c7_copy_fresh_and_indexed` on `gC7` (object 0, one child). -/
theorem c7_witness :
    copy 3 gC7 0 = some (gC7r, 2) ∧
    (2 ∉ gC7.nodes ∧
      (∀ n ∈ gC7.nodes, gC7r.data n = gC7.data n) ∧
      (gC7r.data 2).struct = (gC7.data 0).struct ∧
      (gC7r.data 2).endpoints = (gC7.data 0).endpoints ∧
      (gC7r.data 2).endpoint_dims = (gC7.data 0).endpoint_dims ∧
      (gC7r.data 2).endpoint_directions = (gC7.data 0).endpoint_directions ∧
      (gC7r.data 2).prev = [] ∧
      ((gC7r.data 2).next).map Prod.fst =
        (List.range ((gC7.data 0).compound).length).map LinkKey.idx ∧
      (gC7r.data 2).next =
        ((List.range ((gC7.data 0).compound).length).map LinkKey.idx).zip
          ((gC7r.data 2).compound) ∧
      List.Forall₂ (fun c m => ∃ f gin gout, copy f gin c = some (gout, m))
        ((gC7.data 0).compound) ((gC7r.data 2).compound) ∧
      ∀ m ∈ (gC7r.data 2).compound, m ∉ gC7.nodes ∧ m ∈ gC7r.nodes) :=
  ⟨rfl, c7_copy_fresh_and_indexed 3 gC7 0 gC7r 2 rfl⟩

end GdsTools
